import Mathlib

/-!
Verification of the usage-telemetry subsystem of CLIProxyAPI-Aoao.

This file gives a shallow embedding, in Lean 4, of the Go functions of the
`usagerecord` package that the verified properties talk about, and proves or
refutes those properties.

Modelling conventions:
* Go strings (byte strings restricted here to the characters that the code
  manipulates) are modelled as `List Char`, abbreviated `GoStr`.
* Go `time.Time` values are modelled as an absolute instant in seconds
  (`Int`) together, where relevant, with a local-zone offset in seconds;
  RFC3339 rendering and the civil-calendar conversion are modelled
  concretely.  DST transitions inside a bucket window are not modelled: a
  day is 86400 s and an hour 3600 s of local time.
* The SQLite engine is modelled semantically: a table is a list of rows,
  `UPDATE ... WHERE id = ?` maps over the list, `GROUP BY k` + map lookup
  with a zero default is modelled as counting the rows with the given key,
  SQLite's binary TEXT comparison is lexicographic comparison, and
  `LIKE '%x%'` is an ASCII-case-insensitive substring test.
* Machine integers are modelled as `Int`/`Nat` (no overflow: the quantities
  involved — token counts, status codes, timestamps in seconds — stay far
  below 2^63 in every reachable state, and `strconv.ParseInt` overflow is
  observationally equivalent to an out-of-range parse in the single place
  the code consults it).
* The floating-point computations in `GetIntervalTimeline` are modelled as
  exact IEEE-754 binary64 arithmetic over `ℚ`: each operation computes
  the exact rational result and rounds it to 53 significant bits,
  round-to-nearest ties-to-even (`roundD` below). All reachable values lie
  in the normal range, so subnormals and overflow are not modelled.
-/

namespace CLIProxy

/-- Go strings are modelled as lists of characters. -/
abbrev GoStr := List Char

/-- Convert a Lean string literal to the `GoStr` model. -/
def gs (s : String) : GoStr := s.toList

/-- The white-space set trimmed by `strings.TrimSpace` (ASCII part of
`unicode.IsSpace`: space, TAB, LF, VT, FF, CR). -/
def isGoSpace (c : Char) : Bool := c = ' ' || (9 ≤ c.toNat && c.toNat ≤ 13)

/-- Model of Go `strings.TrimSpace`. -/
def goTrimSpace (s : GoStr) : GoStr :=
  ((s.dropWhile isGoSpace).reverse.dropWhile isGoSpace).reverse

/-- Model of Go `strings.Contains hay needle` (also of SQLite
`hay LIKE '%needle%'` after case folding by the caller). -/
def goContains (hay needle : GoStr) : Bool :=
  hay.tails.any (fun t => needle.isPrefixOf t)

/-- ASCII lower-casing, model of Go `strings.ToLower` for the ASCII data
handled here. -/
def toLowerStr (s : GoStr) : GoStr := s.map Char.toLower

/-- Lexicographic order on strings: model of SQLite's binary TEXT
comparison used by `timestamp >= ?` / `timestamp <= ?`. -/
def goStrLe : GoStr → GoStr → Bool
  | [], _ => true
  | _ :: _, [] => false
  | a :: as, b :: bs => if a < b then true else if a = b then goStrLe as bs else false

/-- `plugin.go maskValue`: masks a sensitive header value, showing only the
first and last few characters. -/
def maskValue (value : GoStr) : GoStr :=
  if value.length ≤ 8 then List.replicate value.length '*'
  else value.take 4 ++ gs "..." ++ value.drop (value.length - 4)

/-- `store.go MaskAPIKey`: masks an API key, showing only the first and
last 2 characters. -/
def MaskAPIKey (key : GoStr) : GoStr :=
  if key.length ≤ 4 then List.replicate key.length '*'
  else key.take 2 ++ List.replicate (key.length - 4) '*' ++ key.drop (key.length - 2)

/-- `plugin.go isSensitiveHeader`: substring match of the lower-cased key
against the sensitive patterns. -/
def isSensitiveHeader (key : GoStr) : Bool :=
  let lower := toLowerStr key
  [gs "authorization", gs "x-api-key", gs "api-key", gs "x-goog-api-key",
   gs "cookie", gs "set-cookie", gs "x-management-key"].any
    (fun pattern => goContains lower pattern)

/-- Header maps (first value of each key, as the Go code extracts them). -/
abbrev Headers := List (GoStr × GoStr)

/-- `captureHeadersBestEffort`: copies headers, masking sensitive ones.
(The Go code iterates the header map and keeps the first value of each key;
the model receives that key/first-value association directly.) -/
def captureHeadersBestEffort (headers : Headers) : Headers :=
  headers.map (fun kv => if isSensitiveHeader kv.1 then (kv.1, maskValue kv.2) else kv)

/-! ## Candidate hook (`OnCandidate`) -/

/-- The candidate event delivered by the routing/retry engine
(`cliproxyauth.Candidate`, the fields `OnCandidate` reads). -/
structure Candidate where
  requestID : GoStr := []
  provider : GoStr := []
  authID : GoStr := []
  authFile : GoStr := []
  status : GoStr := []
  statusCode : Int := 0
  success : Bool := false
  durationMs : Int := 0
  errorMessage : GoStr := []
  candidateIndex : Int := 0
  retryIndex : Int := 0
deriving DecidableEq

/-- A `request_candidates` row as built by the hook (`RequestCandidate`). -/
structure RequestCandidate where
  requestID : GoStr := []
  timestamp : Int := 0
  provider : GoStr := []
  apiKey : GoStr := []
  apiKeyMasked : GoStr := []
  status : GoStr := []
  statusCode : Int := 0
  success : Bool := false
  durationMs : Int := 0
  errorMessage : GoStr := []
  candidateIndex : Int := 0
  retryIndex : Int := 0
deriving DecidableEq

/-- `OnCandidate` (part_002): normalizes and filters a candidate event;
`none` means the event is dropped with no row written.  `now` stands for
`time.Now()`. -/
def OnCandidate (now : Int) (c : Candidate) : Option RequestCandidate :=
  let requestID := goTrimSpace c.requestID
  if requestID = [] then none
  else
    let provider := goTrimSpace c.provider
    let authID := goTrimSpace c.authID
    let authFile0 := goTrimSpace c.authFile
    let authFile := if authFile0 = [] then authID else authFile0
    if authID = [] ∧ authFile = [] then none
    else
      let st0 := goTrimSpace c.status
      let status :=
        if st0 = gs "pending" ∨ st0 = gs "success" ∨ st0 = gs "failed" ∨ st0 = gs "skipped"
        then st0
        else if c.success then gs "success" else gs "failed"
      let statusCode := if c.statusCode = 0 ∧ status = gs "success" then 200 else c.statusCode
      some {
        requestID := requestID
        timestamp := now
        provider := provider
        apiKey := authID
        apiKeyMasked := authFile
        status := status
        statusCode := statusCode
        success := c.success
        durationMs := c.durationMs
        errorMessage := goTrimSpace c.errorMessage
        candidateIndex := c.candidateIndex
        retryIndex := c.retryIndex }

/-! ## Time model: civil calendar, RFC3339 rendering, `ParseTimeParam` -/

/-- Days since 1970-01-01 of the civil date `(y, m, d)` (proleptic
Gregorian; the standard era-based algorithm, as used by Go's
`time` package arithmetic). -/
def daysFromCivil (y m d : Int) : Int :=
  let y' := if m ≤ 2 then y - 1 else y
  let era := y'.ediv 400
  let yoe := y' - era * 400
  let mp := (m + 9).emod 12
  let doy := (153 * mp + 2).ediv 5 + d - 1
  let doe := yoe * 365 + yoe.ediv 4 - yoe.ediv 100 + doy
  era * 146097 + doe - 719468

/-- Civil date `(y, m, d)` of a day count since 1970-01-01 (inverse of
`daysFromCivil`). -/
def civilFromDays (z0 : Int) : Int × Int × Int :=
  let z := z0 + 719468
  let era := z.ediv 146097
  let doe := z - era * 146097
  let yoe := (doe - doe.ediv 1460 + doe.ediv 36524 - doe.ediv 146096).ediv 365
  let y := yoe + era * 400
  let doy := doe - (365 * yoe + yoe.ediv 4 - yoe.ediv 100)
  let mp := (5 * doy + 2).ediv 153
  let d := doy - (153 * mp + 2).ediv 5 + 1
  let m := mp + (if mp < 10 then 3 else -9)
  (if m ≤ 2 then y + 1 else y, m, d)

/-- Two-digit zero-padded decimal rendering (for values in `[0, 99]`). -/
def pad2 (n : Int) : GoStr :=
  [Char.ofNat (48 + (n.ediv 10).emod 10).toNat, Char.ofNat (48 + n.emod 10).toNat]

/-- Four-digit zero-padded decimal rendering (for values in `[0, 9999]`,
the year range the code produces). -/
def pad4 (n : Int) : GoStr :=
  [Char.ofNat (48 + (n.ediv 1000).emod 10).toNat,
   Char.ofNat (48 + (n.ediv 100).emod 10).toNat,
   Char.ofNat (48 + (n.ediv 10).emod 10).toNat,
   Char.ofNat (48 + n.emod 10).toNat]

/-- Model of Go `t.Format(time.RFC3339)` for the instant `t` (seconds since
the epoch) in a local zone of fixed offset `tz` seconds.  Go prints `Z`
when the location is UTC; the model always prints a numeric offset, a
rendering difference that no verified property depends on. -/
def formatRFC3339Offset (tz t : Int) : GoStr :=
  let localT := t + tz
  let days := localT.ediv 86400
  let secs := localT.emod 86400
  let ymd := civilFromDays days
  let tzAbs := if tz < 0 then -tz else tz
  pad4 ymd.1 ++ gs "-" ++ pad2 ymd.2.1 ++ gs "-" ++ pad2 ymd.2.2 ++ gs "T" ++
    pad2 (secs.ediv 3600) ++ gs ":" ++ pad2 ((secs.ediv 60).emod 60) ++ gs ":" ++
    pad2 (secs.emod 60) ++
    (if tz < 0 then gs "-" else gs "+") ++ pad2 (tzAbs.ediv 3600) ++ gs ":" ++
    pad2 ((tzAbs.ediv 60).emod 60)

/-- Decimal digit run to `Nat`; `none` when empty or a non-digit occurs. -/
def digitsToNat : GoStr → Option Nat
  | [] => none
  | cs => if cs.all Char.isDigit
          then some (cs.foldl (fun acc c => acc * 10 + (c.toNat - 48)) 0)
          else none

/-- Model of Go `strconv.ParseInt(s, 10, 64)`.  Int64 overflow is not
modelled: `ParseTimeParam` only compares the result against bounds below
10^10, so an overflowing input fails its range check exactly as the Go
error does. -/
def goParseInt (s : GoStr) : Option Int :=
  match s with
  | '+' :: rest => (digitsToNat rest).map Int.ofNat
  | '-' :: rest => (digitsToNat rest).map (fun n => -(n : Int))
  | _ => (digitsToNat s).map Int.ofNat

/-- Decode two ASCII digits. -/
def dig2 (a b : Char) : Option Nat :=
  if a.isDigit && b.isDigit then some ((a.toNat - 48) * 10 + (b.toNat - 48)) else none

/-- Days in a month of the proleptic Gregorian calendar. -/
def daysInMonth (y m : Int) : Int :=
  if m = 2 then
    (if y.emod 4 = 0 ∧ (y.emod 100 ≠ 0 ∨ y.emod 400 = 0) then 29 else 28)
  else if m = 4 ∨ m = 6 ∨ m = 9 ∨ m = 11 then 30
  else 31

/-- Parse the common `YYYY-MM-DDTHH:MM:SS` prefix of the accepted layouts,
with the range validation Go's `time.Parse` performs; returns the local
seconds value and the unconsumed rest of the input. -/
def parseDateTimeCore (s : GoStr) : Option (Int × GoStr) :=
  match s with
  | y1 :: y2 :: y3 :: y4 :: '-' :: mo1 :: mo2 :: '-' :: d1 :: d2 :: 'T' ::
    h1 :: h2 :: ':' :: mi1 :: mi2 :: ':' :: s1 :: s2 :: rest =>
    match dig2 y1 y2, dig2 y3 y4, dig2 mo1 mo2, dig2 d1 d2,
          dig2 h1 h2, dig2 mi1 mi2, dig2 s1 s2 with
    | some ya, some yb, some mo, some d, some h, some mi, some sec =>
      let y : Int := ya * 100 + yb
      if 1 ≤ mo ∧ mo ≤ 12 ∧ 1 ≤ d ∧ (d : Int) ≤ daysInMonth y mo ∧
         h ≤ 23 ∧ mi ≤ 59 ∧ sec ≤ 59 then
        some (daysFromCivil y mo d * 86400 + h * 3600 + mi * 60 + sec, rest)
      else none
    | _, _, _, _, _, _, _ => none
  | _ => none

/-- Consume an optional fractional-seconds field `.d+` (Go `time.Parse`
accepts one after the seconds even when the layout has none; the value is
discarded at second granularity). -/
def dropFraction (s : GoStr) : GoStr :=
  match s with
  | '.' :: c :: rest => if c.isDigit then (c :: rest).dropWhile Char.isDigit else s
  | _ => s

/-- Parse the RFC3339 zone suffix: `Z` or `±HH:MM`; returns the offset in
seconds provided the whole rest is consumed. -/
def parseZoneSuffix (s : GoStr) : Option Int :=
  match s with
  | ['Z'] => some 0
  | sign :: h1 :: h2 :: ':' :: m1 :: m2 :: [] =>
    match dig2 h1 h2, dig2 m1 m2 with
    | some h, some m =>
      if sign = '+' then some ((h : Int) * 3600 + m * 60)
      else if sign = '-' then some (-((h : Int) * 3600 + m * 60))
      else none
    | _, _ => none
  | _ => none

/-- Model of `time.Parse(time.RFC3339, s)` (and of
`time.Parse(time.RFC3339Nano, s)`, whose parsing acceptance is identical):
date-time core, optional fraction, mandatory zone.  Returns the absolute
instant in epoch seconds. -/
def parseRFC3339 (s : GoStr) : Option Int :=
  match parseDateTimeCore s with
  | some (localSec, rest) =>
    match parseZoneSuffix (dropFraction rest) with
    | some offset => some (localSec - offset)
    | none => none
  | none => none

/-- Model of `time.Parse("2006-01-02T15:04:05.000Z", s)`: exactly three
fraction digits, then a literal `Z`; no zone field, so Go interprets the
time as UTC. -/
def parseISOms (s : GoStr) : Option Int :=
  match parseDateTimeCore s with
  | some (localSec, '.' :: a :: b :: c :: 'Z' :: []) =>
    if a.isDigit && b.isDigit && c.isDigit then some localSec else none
  | _ => none

/-- Model of `time.Parse("2006-01-02T15:04:05Z", s)`: optional tolerated
fraction, then a literal `Z`; interpreted as UTC. -/
def parseISOsec (s : GoStr) : Option Int :=
  match parseDateTimeCore s with
  | some (localSec, rest) =>
    match dropFraction rest with
    | ['Z'] => some localSec
    | _ => none
  | none => none

/-- `store.go ParseTimeParam`: converts a time parameter to local RFC3339
text for database comparison; unparseable inputs pass through verbatim.
`tz` is the process's local zone offset in seconds. -/
def ParseTimeParam (tz : Int) (param : GoStr) : GoStr :=
  if param = [] then []
  else
    let unixOk := match goParseInt param with
      | some ts => 1000000000 < ts && ts < 9999999999
      | none => false
    if unixOk then formatRFC3339Offset tz ((goParseInt param).getD 0)
    else match parseRFC3339 param with
    | some t => formatRFC3339Offset tz t
    | none =>
      match parseRFC3339 param with  -- the RFC3339Nano attempt accepts the same inputs
      | some t => formatRFC3339Offset tz t
      | none =>
        match parseISOms param with
        | some t => formatRFC3339Offset tz t
        | none =>
          match parseISOsec param with
          | some t => formatRFC3339Offset tz t
          | none => param

/-! ## Store model: `usage_records` rows and `PatchByID` -/

/-- A Go `time.Time` value: absolute epoch seconds plus the zone offset its
location carries (used when the code formats it). -/
structure TimeVal where
  tz : Int := 0
  sec : Int := 0
deriving DecidableEq

/-- Render a `TimeVal` the way the store does (`Format(time.RFC3339)`). -/
def fmtTime (tv : TimeVal) : GoStr := formatRFC3339Offset tv.tz tv.sec

/-- Model of `encoding/json.Marshal` for a string-map: a JSON object
rendering (key order as listed; Go's key sorting is irrelevant to every
property proved here). -/
def jsonObj (h : Headers) : GoStr :=
  let quote : GoStr → GoStr := fun s => '"' :: s ++ ['"']
  let body := (h.map (fun kv => quote kv.1 ++ [':'] ++ quote kv.2)).intersperse [',']
  Char.ofNat 123 :: body.flatten ++ [Char.ofNat 125]

/-- One stored row of the `usage_records` table, with column encodings as
the schema declares them (booleans as 0/1 integers, timestamps and header
maps as TEXT). -/
structure Row where
  id : Int := 0
  requestID : GoStr := []
  timestamp : GoStr := []
  ip : GoStr := []
  apiKey : GoStr := []
  apiKeyMasked : GoStr := []
  model : GoStr := []
  provider : GoStr := []
  isStreaming : Int := 0
  inputTokens : Int := 0
  outputTokens : Int := 0
  totalTokens : Int := 0
  cachedTokens : Int := 0
  reasoningTokens : Int := 0
  durationMs : Int := 0
  statusCode : Int := 0
  success : Int := 0
  requestURL : GoStr := []
  requestMethod : GoStr := []
  requestHeaders : GoStr := []
  requestBody : GoStr := []
  responseHeaders : GoStr := []
  responseBody : GoStr := []
  createdAt : GoStr := []
deriving DecidableEq

/-- `RecordPatch` (part_004): a partial update; any `none` field is
ignored. -/
structure RecordPatch where
  timestamp : Option TimeVal := none
  ip : Option GoStr := none
  apiKey : Option GoStr := none
  apiKeyMasked : Option GoStr := none
  model : Option GoStr := none
  provider : Option GoStr := none
  isStreaming : Option Bool := none
  inputTokens : Option Int := none
  outputTokens : Option Int := none
  totalTokens : Option Int := none
  cachedTokens : Option Int := none
  reasoningTokens : Option Int := none
  durationMs : Option Int := none
  statusCode : Option Int := none
  success : Option Bool := none
  requestURL : Option GoStr := none
  requestMethod : Option GoStr := none
  requestHeaders : Option Headers := none
  requestBody : Option GoStr := none
  responseHeaders : Option Headers := none
  responseBody : Option GoStr := none
deriving DecidableEq

/-- Bool column encoding, as `Insert`/`PatchByID` encode it. -/
def boolToInt (b : Bool) : Int := if b then 1 else 0

/-- True when every patch field is `nil` — the `len(sets) == 0` case of
`PatchByID`. -/
def patchIsEmpty (p : RecordPatch) : Bool :=
  p.timestamp.isNone && p.ip.isNone && p.apiKey.isNone && p.apiKeyMasked.isNone &&
  p.model.isNone && p.provider.isNone && p.isStreaming.isNone &&
  p.inputTokens.isNone && p.outputTokens.isNone && p.totalTokens.isNone &&
  p.cachedTokens.isNone && p.reasoningTokens.isNone && p.durationMs.isNone &&
  p.statusCode.isNone && p.success.isNone && p.requestURL.isNone &&
  p.requestMethod.isNone && p.requestHeaders.isNone && p.requestBody.isNone &&
  p.responseHeaders.isNone && p.responseBody.isNone

/-- Effect of the dynamically built `UPDATE usage_records SET ...` on one
row: each non-`nil` patch field overwrites its column with the encoding the
Go code passes (`Format(time.RFC3339)` for the timestamp, 0/1 for
booleans, `json.Marshal` for header maps); every other column keeps its
value. -/
def applyPatch (p : RecordPatch) (r : Row) : Row :=
  { r with
    timestamp := match p.timestamp with | some tv => fmtTime tv | none => r.timestamp
    ip := p.ip.getD r.ip
    apiKey := p.apiKey.getD r.apiKey
    apiKeyMasked := p.apiKeyMasked.getD r.apiKeyMasked
    model := p.model.getD r.model
    provider := p.provider.getD r.provider
    isStreaming := match p.isStreaming with | some b => boolToInt b | none => r.isStreaming
    inputTokens := p.inputTokens.getD r.inputTokens
    outputTokens := p.outputTokens.getD r.outputTokens
    totalTokens := p.totalTokens.getD r.totalTokens
    cachedTokens := p.cachedTokens.getD r.cachedTokens
    reasoningTokens := p.reasoningTokens.getD r.reasoningTokens
    durationMs := p.durationMs.getD r.durationMs
    statusCode := p.statusCode.getD r.statusCode
    success := match p.success with | some b => boolToInt b | none => r.success
    requestURL := p.requestURL.getD r.requestURL
    requestMethod := p.requestMethod.getD r.requestMethod
    requestHeaders := match p.requestHeaders with | some h => jsonObj h | none => r.requestHeaders
    requestBody := p.requestBody.getD r.requestBody
    responseHeaders := match p.responseHeaders with | some h => jsonObj h | none => r.responseHeaders
    responseBody := p.responseBody.getD r.responseBody }

/-- The store state the claims observe: the table contents, the closed
flag, and whether the TTL query cache still holds entries
(`invalidateCaches` clears it). -/
structure StoreState where
  rows : List Row
  closed : Bool
  cacheValid : Bool
deriving DecidableEq

/-- `PatchByID` (part_004): validates, returns `(0, nil)` without touching
the database when the patch is empty, otherwise runs the dynamic `UPDATE`
over the rows with the given id, invalidates the query cache, and reports
the number of affected rows. -/
def PatchByID (st : StoreState) (id : Int) (p : RecordPatch) :
    Except GoStr (Int × StoreState) :=
  if st.closed then .error (gs "store is closed")
  else if id ≤ 0 then .error (gs "invalid record id")
  else if patchIsEmpty p then .ok (0, st)
  else
    .ok (((st.rows.filter (fun r => r.id = id)).length : Int),
      { st with
        rows := st.rows.map (fun r => if r.id = id then applyPatch p r else r)
        cacheValid := false })

/-! ## Entry middleware: final patch and response-body extraction -/

/-- A value stored under the gin key `response_body_for_log`: the code
accepts both `[]byte` and `string`. -/
inductive BodyVal where
  | bytes (b : GoStr)
  | str (t : GoStr)
deriving DecidableEq

/-- The request-scoped gin context as the middleware and plugin read it:
writer status, captured values, and the typed context bag entries.
`panicMsg` is `fmt.Sprint` of the recovered value (read only when a panic
was recovered); `errorsStr` is the rendering `c.Errors.String()` (empty
when there are no errors); `recordDBID` is the already-resolved value of
the `__usage_record_id__` key (0 when absent). -/
structure GinCtx where
  writerStatus : Int := 0
  contentTypeHeader : GoStr := []
  apiKeyVal : Option GoStr := none
  isStreamingVal : Option Bool := none
  responseBodyForLog : Option BodyVal := none
  apiResponse : Option GoStr := none
  panicMsg : GoStr := []
  errorsStr : GoStr := []
  requestMethod : GoStr := []
  requestURL : GoStr := []
  clientIP : GoStr := []
  requestID : GoStr := []
  recordDBID : Int := 0
  requestBodyForLog : Option GoStr := none
  requestHeaders : Headers := []
  responseHeaders : Headers := []
deriving DecidableEq

/-- The status code the final patch stores: the writer status, overridden
to 500 when a panic was recovered. -/
def finalStatusCode (g : GinCtx) (recovered : Bool) : Int :=
  if recovered then 500 else g.writerStatus

/-- Model of `net/http.StatusText` for the status codes exercised here;
codes without an assigned reason phrase map to the empty string, as in
Go. -/
def statusText (code : Int) : GoStr :=
  if code = 400 then gs "Bad Request"
  else if code = 401 then gs "Unauthorized"
  else if code = 403 then gs "Forbidden"
  else if code = 404 then gs "Not Found"
  else if code = 405 then gs "Method Not Allowed"
  else if code = 408 then gs "Request Timeout"
  else if code = 429 then gs "Too Many Requests"
  else if code = 500 then gs "Internal Server Error"
  else if code = 501 then gs "Not Implemented"
  else if code = 502 then gs "Bad Gateway"
  else if code = 503 then gs "Service Unavailable"
  else if code = 504 then gs "Gateway Timeout"
  else []

/-- Decimal rendering of an integer (Go `%d`). -/
def intToGoStr (n : Int) : GoStr := (toString n).toList

/-- First stage of `extractResponseBodyBestEffort`: the
`response_body_for_log` value — a non-empty `[]byte`, or a `string` whose
trimmed form is non-empty. -/
def bodyForLogVal (g : GinCtx) : Option GoStr :=
  match g.responseBodyForLog with
  | some (.bytes b) => if b.length > 0 then some b else none
  | some (.str t) => if goTrimSpace t = [] then none else some t
  | none => none

/-- Second stage: the raw `API_RESPONSE` bytes when not blank (returned
untrimmed). -/
def apiResponseVal (g : GinCtx) : Option GoStr :=
  match g.apiResponse with
  | some b => if goTrimSpace b = [] then none else some b
  | none => none

/-- Third stage: the trimmed recovered panic message, when a panic was
recovered and the trimmed message is non-empty. -/
def panicStageVal (g : GinCtx) (recovered : Bool) : Option GoStr :=
  if recovered then
    (let m := goTrimSpace g.panicMsg
     if m = [] then none else some m)
  else none

/-- Fourth stage: the trimmed gin error rendering, when non-empty. -/
def errorsVal (g : GinCtx) : Option GoStr :=
  let m := goTrimSpace g.errorsStr
  if m = [] then none else some m

/-- Final stage: the synthesized `"HTTP <status> <reason>"` (or
`"HTTP <status>"` when the code has no reason phrase) for statuses ≥ 400,
else the empty string. -/
def synthesizedVal (g : GinCtx) (recovered : Bool) : GoStr :=
  let status := finalStatusCode g recovered
  if status ≥ 400 then
    (let text := goTrimSpace (statusText status)
     if text = [] then gs "HTTP " ++ intToGoStr status
     else gs "HTTP " ++ intToGoStr status ++ gs " " ++ text)
  else []

/-- `extractResponseBodyBestEffort` (part_001): the five fallback stages in
source order. -/
def extractResponseBodyBestEffort (g : GinCtx) (recovered : Bool) : GoStr :=
  (bodyForLogVal g).getD <|
    (apiResponseVal g).getD <|
      (panicStageVal g recovered).getD <|
        (errorsVal g).getD (synthesizedVal g recovered)

/-- `patchUsageRecordFinal` (part_001): the patch the middleware issues on
every exit path.  `durationMs` stands for `time.Since(start)`; the URL,
headers and body captured at entry are passed through unchanged. -/
def patchUsageRecordFinal (g : GinCtx) (durationMs : Int) (requestURL : GoStr)
    (requestHeaders : Headers) (requestBody : GoStr) (recovered : Bool) : RecordPatch :=
  let statusCode := finalStatusCode g recovered
  let success := statusCode > 0 && statusCode < 400
  let apiKey := g.apiKeyVal.getD []
  let isStreaming0 := g.isStreamingVal.getD false
  let isStreaming :=
    isStreaming0 || goContains (toLowerStr g.contentTypeHeader) (gs "text/event-stream")
  let respHeaders := captureHeadersBestEffort g.responseHeaders
  let responseBody := extractResponseBodyBestEffort g recovered
  let apiKeyMasked := if goTrimSpace apiKey = [] then [] else MaskAPIKey apiKey
  { ip := some g.clientIP
    apiKey := some apiKey
    apiKeyMasked := some apiKeyMasked
    isStreaming := some isStreaming
    durationMs := some durationMs
    statusCode := some statusCode
    success := some success
    requestURL := some requestURL
    requestMethod := some g.requestMethod
    requestHeaders := some requestHeaders
    requestBody := some requestBody
    responseHeaders := some respHeaders
    responseBody := some responseBody }

/-! ## Usage-event plugin (`HandleUsage`) -/

/-- Token detail of a usage event (`coreusage.Record.Detail`). -/
structure UsageDetail where
  inputTokens : Int := 0
  outputTokens : Int := 0
  cachedTokens : Int := 0
  reasoningTokens : Int := 0
  totalTokens : Int := 0
deriving DecidableEq

/-- The usage event delivered by the provider layer
(`coreusage.Record`). -/
structure UsageEvent where
  apiKey : GoStr := []
  provider : GoStr := []
  model : GoStr := []
  failed : Bool := false
  detail : UsageDetail := ⟨0, 0, 0, 0, 0⟩
deriving DecidableEq

/-- The in-memory `Record` struct as `HandleUsage` (fallback path) and the
middleware's pending insert build it, before column encoding. -/
structure Rec where
  requestID : GoStr := []
  timestamp : TimeVal := ⟨0, 0⟩
  ip : GoStr := []
  apiKey : GoStr := []
  apiKeyMasked : GoStr := []
  model : GoStr := []
  provider : GoStr := []
  isStreaming : Bool := false
  inputTokens : Int := 0
  outputTokens : Int := 0
  totalTokens : Int := 0
  cachedTokens : Int := 0
  reasoningTokens : Int := 0
  durationMs : Int := 0
  statusCode : Int := 0
  success : Bool := false
  requestURL : GoStr := []
  requestMethod : GoStr := []
  requestHeaders : Headers := []
  requestBody : GoStr := []
  responseHeaders : Headers := []
  responseBody : GoStr := []
deriving DecidableEq

/-- What `HandleUsage` does with the event: patch the pending row in place,
or enqueue a fresh row on the write queue. -/
inductive UsageAction where
  | patchPending (id : Int) (p : RecordPatch)
  | enqueueInsert (rec : Rec)
deriving DecidableEq

/-- `HandleUsage` (plugin.go): decides between patching the pending record
and the fallback insert, and builds the data written in either case.
`ts` stands for the resolved timestamp (`record.RequestedAt`, or `now` when
zero) and `durationMs` for the duration resolved from the context/start
time; the store patch is modelled error-free (a failed patch falls back to
the insert path in Go, an I/O case outside this model). -/
def HandleUsage (ev : UsageEvent) (gctx : Option GinCtx) (ts : TimeVal)
    (durationMs : Int) : UsageAction :=
  let statusCode := match gctx with | some g => g.writerStatus | none => 0
  let isStreaming := match gctx with | some g => g.isStreamingVal.getD false | none => false
  let recordDBID := match gctx with | some g => g.recordDBID | none => 0
  let requestID := match gctx with | some g => g.requestID | none => []
  let ip := match gctx with | some g => g.clientIP | none => []
  let requestURL := match gctx with | some g => g.requestURL | none => []
  let requestMethod := match gctx with | some g => g.requestMethod | none => []
  let requestHeaders := match gctx with
    | some g => captureHeadersBestEffort g.requestHeaders
    | none => []
  let responseHeaders := match gctx with
    | some g => captureHeadersBestEffort g.responseHeaders
    | none => []
  let requestBody := match gctx with
    | some g => g.requestBodyForLog.getD []
    | none => []
  let responseBody := match gctx with
    | some g => match g.responseBodyForLog with
      | some (.bytes b) => b
      | _ => []
    | none => []
  let success := !ev.failed && !(statusCode ≥ 400)
  if recordDBID > 0 then
    .patchPending recordDBID
      { apiKey := some ev.apiKey
        apiKeyMasked := some (MaskAPIKey ev.apiKey)
        model := some ev.model
        provider := some ev.provider
        isStreaming := some isStreaming
        inputTokens := some ev.detail.inputTokens
        outputTokens := some ev.detail.outputTokens
        totalTokens := some (ev.detail.inputTokens + ev.detail.outputTokens)
        cachedTokens := some ev.detail.cachedTokens
        reasoningTokens := some ev.detail.reasoningTokens }
  else
    .enqueueInsert
      { requestID := requestID
        timestamp := ts
        ip := ip
        apiKey := ev.apiKey
        apiKeyMasked := MaskAPIKey ev.apiKey
        model := ev.model
        provider := ev.provider
        isStreaming := isStreaming
        inputTokens := ev.detail.inputTokens
        outputTokens := ev.detail.outputTokens
        totalTokens := ev.detail.inputTokens + ev.detail.outputTokens
        cachedTokens := ev.detail.cachedTokens
        reasoningTokens := ev.detail.reasoningTokens
        durationMs := durationMs
        statusCode := statusCode
        success := success
        requestURL := requestURL
        requestMethod := requestMethod
        requestHeaders := requestHeaders
        requestBody := requestBody
        responseHeaders := responseHeaders
        responseBody := responseBody }

/-- Projection: the success flag of the record an action persists (the
patched field, or the inserted record's field). -/
def actionSuccess : UsageAction → Option Bool
  | .patchPending _ p => p.success
  | .enqueueInsert r => some r.success

/-- Projection: the status code an action persists. -/
def actionStatusCode : UsageAction → Option Int
  | .patchPending _ p => p.statusCode
  | .enqueueInsert r => some r.statusCode

/-- Projection: the `total_tokens` value an action persists. -/
def actionTotalTokens : UsageAction → Option Int
  | .patchPending _ p => p.totalTokens
  | .enqueueInsert r => some r.totalTokens

/-! ## `List`: filtered, sorted, paginated query -/

/-- `ListQuery` (store.go), the fields `List` consults. -/
structure ListQuery where
  page : Int := 0
  pageSize : Int := 0
  apiKey : GoStr := []
  model : GoStr := []
  provider : GoStr := []
  startTime : GoStr := []
  endTime : GoStr := []
  success : Option Bool := none
  search : GoStr := []
  sortBy : GoStr := []
  sortOrder : GoStr := []
deriving DecidableEq

/-- The WHERE clause `List` builds, evaluated on one row.  `LIKE '%x%'` is
SQLite's ASCII-case-insensitive containment; the time bounds compare the
`ParseTimeParam`-normalized text against the stored TEXT column. -/
def matchesWhere (tz : Int) (q : ListQuery) (r : Row) : Bool :=
  (q.apiKey = [] || goContains (toLowerStr r.apiKey) (toLowerStr q.apiKey)) &&
  (q.model = [] || goContains (toLowerStr r.model) (toLowerStr q.model)) &&
  (q.provider = [] || goContains (toLowerStr r.provider) (toLowerStr q.provider)) &&
  (q.startTime = [] || goStrLe (ParseTimeParam tz q.startTime) r.timestamp) &&
  (q.endTime = [] || goStrLe r.timestamp (ParseTimeParam tz q.endTime)) &&
  (match q.success with
   | some b => r.success = boolToInt b
   | none => true) &&
  (q.search = [] ||
    (goContains (toLowerStr r.model) (toLowerStr q.search) ||
     goContains (toLowerStr r.provider) (toLowerStr q.search) ||
     goContains (toLowerStr r.requestURL) (toLowerStr q.search) ||
     goContains (toLowerStr r.apiKey) (toLowerStr q.search) ||
     goContains (toLowerStr r.apiKeyMasked) (toLowerStr q.search) ||
     goContains (toLowerStr r.ip) (toLowerStr q.search)))

/-- The whitelisted sort column: one of the six allowed names, else
`timestamp`. -/
def sortColumn (sortBy : GoStr) : GoStr :=
  if sortBy = gs "timestamp" ∨ sortBy = gs "model" ∨ sortBy = gs "provider" ∨
     sortBy = gs "total_tokens" ∨ sortBy = gs "duration_ms" ∨ sortBy = gs "status_code"
  then sortBy else gs "timestamp"

/-- Comparison on the whitelisted column (ascending). -/
def rowLeBy (col : GoStr) (a b : Row) : Bool :=
  if col = gs "model" then goStrLe a.model b.model
  else if col = gs "provider" then goStrLe a.provider b.provider
  else if col = gs "total_tokens" then a.totalTokens ≤ b.totalTokens
  else if col = gs "duration_ms" then a.durationMs ≤ b.durationMs
  else if col = gs "status_code" then a.statusCode ≤ b.statusCode
  else goStrLe a.timestamp b.timestamp

/-- The `ORDER BY` relation: the whitelisted column, descending unless the
sort order upper-cases to `ASC`. -/
def rowLe (q : ListQuery) (a b : Row) : Prop :=
  (if toLowerStr q.sortOrder = gs "asc"
   then rowLeBy (sortColumn q.sortBy) a b
   else rowLeBy (sortColumn q.sortBy) b a) = true

instance (q : ListQuery) : DecidableRel (rowLe q) := fun a b => by
  unfold rowLe; infer_instance

/-- `ListResult` (store.go), the pagination fields. -/
structure ListResult where
  records : List Row
  total : Int
  page : Int
  pageSize : Int
  totalPages : Int
deriving DecidableEq

/-- `List` (store.go): default/clamped pagination, WHERE filter, COUNT,
whitelisted sort, and `LIMIT page_size OFFSET (page-1)*page_size`.  The
SQL engine's sort is modelled as an insertion sort under the `ORDER BY`
relation (ties are broken arbitrarily by SQLite; any fixed choice is a
valid model, and no property proved here depends on it). -/
def listRecords (tz : Int) (rows : List Row) (q : ListQuery) : ListResult :=
  let page := if q.page < 1 then 1 else q.page
  let pageSize0 := if q.pageSize < 1 then 20 else q.pageSize
  let pageSize := if pageSize0 > 100 then 100 else pageSize0
  let filtered := rows.filter (matchesWhere tz q)
  let total : Int := filtered.length
  let sorted := filtered.insertionSort (rowLe q)
  let offset := (page - 1) * pageSize
  let records := (sorted.drop offset.toNat).take pageSize.toNat
  { records := records
    total := total
    page := page
    pageSize := pageSize
    totalPages := (total + pageSize - 1).tdiv pageSize }

/-! ## `GetUsageKPIs`: trend bucket choice and dense series -/

/-- A row as the KPI trend queries see it: the stored instant (local
seconds; the SQL key `substr(timestamp, 1, 13)` buckets the RFC3339-local
text by hour, which on this model is `ediv 3600`, and `substr .. 10` by
day, `ediv 86400`) and the token columns entering
`SUM(input_tokens + output_tokens + cached_tokens + reasoning_tokens)`. -/
structure KRow where
  ts : Int := 0
  inputTokens : Int := 0
  outputTokens : Int := 0
  cachedTokens : Int := 0
  reasoningTokens : Int := 0
deriving DecidableEq

/-- The token sum the KPI queries aggregate per row. -/
def kTokens (r : KRow) : Int :=
  r.inputTokens + r.outputTokens + r.cachedTokens + r.reasoningTokens

/-- The resolution of the trend window (store.go): default end to `now`,
default start to `end − 24 h`, swap when inverted. -/
def resolveTrendWindow (startOpt endOpt : Option Int) (now : Int) : Int × Int :=
  let e := endOpt.getD now
  let s := startOpt.getD (e - 86400)
  if e < s then (e, s) else (s, e)

/-- `trend_bucket` choice: `day` when the window exceeds 48 hours, else
`hour`. -/
def trendBucket (s e : Int) : GoStr :=
  if e - s > 172800 then gs "day" else gs "hour"

/-- The dense bucket labels the emission loop walks: every width-`w` bucket
from the bucket of `s` to the bucket of `e` inclusive (the Go loop from
`start.Truncate(w)` stepping `w` while not after `end`), identified by its
floor index. -/
def bucketLabels (w s e : Int) : List Int :=
  if s.ediv w ≤ e.ediv w then
    (List.range ((e.ediv w - s.ediv w).toNat + 1)).map (fun (i : Nat) => s.ediv w + (i : Int))
  else []

/-- One dense series: for each bucket label, the aggregate `f` over the
rows falling in that bucket (the SQL `GROUP BY` + Go map lookup, whose
missing-key default 0 is the aggregate of the empty row list). -/
def denseSeries (w : Int) (rows : List KRow) (s e : Int) (f : List KRow → Int) :
    List (Int × Int) :=
  (bucketLabels w s e).map
    (fun h => (h, f (rows.filter (fun r => r.ts.ediv w = h))))

/-- The bucket width in seconds for a chosen trend bucket. -/
def bucketWidth (s e : Int) : Int := if trendBucket s e = gs "day" then 86400 else 3600

/-- The `requests_trend` series of `GetUsageKPIs` for the resolved window:
dense, one point per bucket, counting the matching rows. -/
def requestsTrend (rows : List KRow) (s e : Int) : List (Int × Int) :=
  denseSeries (bucketWidth s e) rows s e (fun rs => (rs.length : Int))

/-- The `tokens_trend` series of `GetUsageKPIs` for the resolved window:
dense, one point per bucket, summing the four token columns. -/
def tokensTrend (rows : List KRow) (s e : Int) : List (Int × Int) :=
  denseSeries (bucketWidth s e) rows s e (fun rs => (rs.map kTokens).sum)

/-! ## IEEE-754 binary64 arithmetic

`GetIntervalTimeline` computes in `float64`: the interval in minutes
(`Duration.Minutes`), the `interval > 120` filter, the `int(interval*100)`
rounding, and the sampling stride `int(float64(i) * float64(len)/float64(limit))`.
We model binary64 exactly over `ℚ`: every value reachable in these
computations is a normal double (or zero), so a double is a rational and
each operation is "compute the exact rational, round to 53 significant
bits, round-half-even". Overflow and subnormals are not reachable here and
are not modelled. -/

/-- `⌊log₂ q⌋` for a positive rational, from its numerator and
denominator by natural-number logarithms. -/
def ilog2q (q : ℚ) : ℤ :=
  let a := q.num.toNat
  let b := q.den
  if b ≤ a then (Nat.log 2 (a / b) : ℤ)
  else
    let m := Nat.log 2 (b / a)
    if b ≤ a * 2 ^ m then -(m : ℤ) else -(m : ℤ) - 1

/-- Round a rational to the nearest integer, ties to even. -/
def rhe (x : ℚ) : ℤ :=
  let f := ⌊x⌋
  if x - (f : ℚ) < 1 / 2 then f
  else if 1 / 2 < x - (f : ℚ) then f + 1
  else if 2 ∣ f then f else f + 1

/-- Round a positive rational to 53 significant binary digits,
round-to-nearest ties-to-even: scale into `[2^52, 2^53)`, round to an
integer mantissa, scale back. -/
def roundPos (q : ℚ) : ℚ :=
  (rhe (q * (2 : ℚ) ^ (52 - ilog2q q)) : ℚ) * (2 : ℚ) ^ (ilog2q q - 52)

/-- binary64 rounding of an exact rational (normal range; zero to zero,
negatives by sign symmetry). -/
def roundD (q : ℚ) : ℚ :=
  if 0 < q then roundPos q else if q < 0 then -roundPos (-q) else 0

/-- Half an ulp at 1: `2^-53`, the relative-error bound of `roundD` on the
normal range. -/
def uEps : ℚ := 1 / 9007199254740992

/-- Go `float64(n)` for an integer `n` (round-to-nearest-even). -/
def fofInt (n : Int) : ℚ := roundD (n : ℚ)

/-- binary64 addition: round the exact sum. -/
def fadd (a b : ℚ) : ℚ := roundD (a + b)

/-- binary64 multiplication: round the exact product. -/
def fmul (a b : ℚ) : ℚ := roundD (a * b)

/-- binary64 division: round the exact quotient. -/
def fdiv (a b : ℚ) : ℚ := roundD (a / b)

/-- Go `int(x)` on a float64 value: truncation toward zero. -/
def ftrunc (q : ℚ) : Int := if q < 0 then -⌊-q⌋ else ⌊q⌋

/-- Go `Duration.Minutes()` on `d` nanoseconds:
`float64(d / Minute) + float64(d % Minute) / (60*1e9)`, with `/` and `%`
truncating toward zero and every step a binary64 operation. -/
def durationMinutes (d : Int) : ℚ :=
  fadd (fofInt (d.tdiv 60000000000))
    (fdiv (fofInt (d.tmod 60000000000)) (fofInt 60000000000))

/-- The interval in minutes between two records `Δsec` seconds apart:
`Sub` yields exactly `Δsec·1e9` nanoseconds (RFC3339 timestamps are
second-granular), then `Duration.Minutes`. -/
def intervalMinutes (dsec : Int) : ℚ := durationMinutes (dsec * 1000000000)

/-! ## `GetIntervalTimeline`: consecutive-request intervals -/

/-- One scatter point: `x` is the instant of the later request of the pair,
`y100` the code's `int(interval*100)` (the emitted `Y` is
`float64(y100)/100`). -/
structure IPoint where
  x : Int
  y100 : Int
  model : GoStr
deriving DecidableEq

/-- The interval filter: the pair is kept unless the float64 interval
exceeds the exact float64 value 120. -/
def intervalKept (d : Int) : Bool := decide (intervalMinutes d ≤ 120)

/-- The per-pair loop of `GetIntervalTimeline`: one point per consecutive
pair of the (timestamp-ascending) successful records whose interval is at
most 120 minutes, `y100 = int(interval*100)` in binary64. -/
def intervalPoints : List (Int × GoStr) → List IPoint
  | [] => []
  | [_] => []
  | a :: b :: rest =>
    (if intervalKept (b.1 - a.1)
     then [⟨b.1, ftrunc (fmul (intervalMinutes (b.1 - a.1)) 100), b.2⟩] else []) ++
    intervalPoints (b :: rest)

/-- The sampling index `int(float64(i) * (float64(len)/float64(limit)))`,
every step in binary64. -/
def strideIdx (len lim i : Nat) : Int :=
  ftrunc (fmul (fofInt (i : Int)) (fdiv (fofInt (len : Int)) (fofInt (lim : Int))))

/-- The even-stride decimation: when more than `limit` points survive, emit
`points[strideIdx i]` for `i ∈ [0, limit)`, guarded by the code's
`idx < len(points)` bounds check. -/
def sampleEvenly (points : List IPoint) (limit : Nat) : List IPoint :=
  if limit < points.length then
    (List.range limit).filterMap (fun i =>
      if strideIdx points.length limit i < (points.length : Int)
      then some (points.getD (strideIdx points.length limit i).toNat ⟨0, 0, []⟩)
      else none)
  else points

/-- The `limit` normalization of `GetIntervalTimeline`: default 5000,
clamped to `[1, 10000]`. -/
def normalizeLimit (limit : Int) : Nat :=
  if limit < 1 then 5000 else if limit > 10000 then 10000 else limit.toNat

/-- `GetIntervalTimeline`, from the queried record list (timestamp plus
model of the success-only rows in the window, ordered ascending) to the
emitted points. -/
def getIntervalTimelinePoints (records : List (Int × GoStr)) (limit : Int) : List IPoint :=
  sampleEvenly (intervalPoints records) (normalizeLimit limit)

/-! ## Spec-side definitions

The following definitions transcribe properties the specification states,
for comparison against the embedded source functions above. -/

/-- The specification's success invariant for a persisted record:
`success ⇔ (status_code ∈ [200,400)) ∧ ¬failed ∧ ¬panicked`. -/
def specSuccessInvariant (success : Bool) (statusCode : Int)
    (failed panicked : Bool) : Prop :=
  success = true ↔ (200 ≤ statusCode ∧ statusCode < 400) ∧ failed = false ∧ panicked = false

/-- The specification's response-body fallback chain, transcribed as
stated: `response_body_for_log` if non-empty, else `API_RESPONSE` if
non-blank, else the recovered panic message if a panic occurred, else the
collected framework errors, else `"HTTP <status> <reason>"` when the final
status is ≥ 400, else empty. -/
def specResponseBodyFallback (g : GinCtx) (recovered : Bool) : GoStr :=
  let bodyCaptured : GoStr :=
    match g.responseBodyForLog with
    | some (.bytes b) => b
    | some (.str t) => t
    | none => []
  let apiResp : GoStr := g.apiResponse.getD []
  if bodyCaptured ≠ [] then bodyCaptured
  else if goTrimSpace apiResp ≠ [] then apiResp
  else if recovered then g.panicMsg
  else if g.errorsStr ≠ [] then g.errorsStr
  else
    let status := finalStatusCode g recovered
    if status ≥ 400 then gs "HTTP " ++ intToGoStr status ++ gs " " ++ statusText status
    else []

/-- First non-empty string of a candidate list. -/
def firstNonEmpty : List GoStr → GoStr
  | [] => []
  | s :: rest => if s = [] then firstNonEmpty rest else s

/-- The amended response-body fallback chain: the first non-empty candidate
among — the captured `response_body_for_log` (bytes as captured; a string
value only when non-blank), the raw `API_RESPONSE` when non-blank (stored
untrimmed), the trimmed panic message when a panic was recovered, the
trimmed framework-error rendering, and the synthesized
`"HTTP <status> <reason>"` (reason omitted when unassigned) when the final
status is ≥ 400. -/
def amendedResponseBodyFallback (g : GinCtx) (recovered : Bool) : GoStr :=
  firstNonEmpty [
    (match g.responseBodyForLog with
     | some (.bytes b) => b
     | some (.str t) => if goTrimSpace t = [] then [] else t
     | none => []),
    (match g.apiResponse with
     | some b => if goTrimSpace b = [] then [] else b
     | none => []),
    (if recovered then goTrimSpace g.panicMsg else []),
    goTrimSpace g.errorsStr,
    synthesizedVal g recovered]

/-- Projection: the affected-row count of a `PatchByID` result. -/
def patchResultAffected : Except GoStr (Int × StoreState) → Option Int
  | .ok (n, _) => some n
  | .error _ => none

/-- Projection: the store state after a `PatchByID` result. -/
def patchResultState : Except GoStr (Int × StoreState) → Option StoreState
  | .ok (_, st) => some st
  | .error _ => none

/-! # Theorems -/

/-- C10: every header value routed through the sensitive-header mask is
stored as `len(v)` asterisks when `len(v) ≤ 8`, and otherwise as the first
4 characters, `"..."`, then the last 4 characters — so at most 8 characters
of the value are persisted and the long-input mask always has length 11;
this shape differs from the documented api-key mask. -/
theorem maskValue_shape (v : GoStr) :
    (v.length ≤ 8 → maskValue v = List.replicate v.length '*') ∧
    (8 < v.length →
      maskValue v = v.take 4 ++ gs "..." ++ v.drop (v.length - 4) ∧
      (maskValue v).length = 11 ∧
      (v.take 4).length + (v.drop (v.length - 4)).length = 8) ∧
    maskValue (gs "abcdefghijkl") ≠ MaskAPIKey (gs "abcdefghijkl") := by
  refine ⟨fun h => by simp [maskValue, h], fun h => ?_, by decide⟩
  have h' : ¬ v.length ≤ 8 := by omega
  refine ⟨by simp [maskValue, h'], ?_, ?_⟩
  · simp only [maskValue, h', if_false, List.length_append, List.length_take,
      List.length_drop, gs, String.toList]
    have : (gs "...").length = 3 := by decide
    simp only [gs, String.toList] at this
    omega
  · simp only [List.length_take, List.length_drop]
    omega

/-- Witness for `maskValue_shape` at concrete short and long inputs. -/
theorem maskValue_shape_witness :
    maskValue (gs "secret") = List.replicate (gs "secret").length '*' ∧
    maskValue (gs "secretvalue") =
      (gs "secretvalue").take 4 ++ gs "..." ++
        (gs "secretvalue").drop ((gs "secretvalue").length - 4) :=
  ⟨(maskValue_shape (gs "secret")).1 (by decide),
   ((maskValue_shape (gs "secretvalue")).2.1 (by decide)).1⟩

/-- C2: every usage record written by the usage-event plugin — the patch
path and the fallback insert path alike — stores
`total_tokens = input_tokens + output_tokens`, and the API-reported total
in the usage event never influences the write. -/
theorem HandleUsage_totalTokens (ev : UsageEvent) (gctx : Option GinCtx)
    (ts : TimeVal) (d : Int) :
    actionTotalTokens (HandleUsage ev gctx ts d) =
      some (ev.detail.inputTokens + ev.detail.outputTokens) ∧
    (∀ t : Int,
      HandleUsage { ev with detail := { ev.detail with totalTokens := t } } gctx ts d =
        HandleUsage ev gctx ts d) := by
  constructor
  · simp only [HandleUsage]
    split <;> simp [actionTotalTokens]
  · intro t; rfl

/-- C1 (counterexample): the claimed invariant
`success ⇔ status ∈ [200,400) ∧ ¬failed ∧ ¬panicked` fails on the code: a
usage event with `failed = false` arriving without a gin context is
persisted through the fallback insert with `status_code = 0` and
`success = true`. -/
theorem success_invariant_cex :
    actionSuccess (HandleUsage { failed := false } none ⟨0, 0⟩ 0) = some true ∧
    actionStatusCode (HandleUsage { failed := false } none ⟨0, 0⟩ 0) = some 0 ∧
    ¬ specSuccessInvariant true 0 false false := by
  refine ⟨by decide, by decide, ?_⟩
  intro h
  have := h.mp rfl
  omega

/-- C1 (amended): the middleware's final patch stores
`success = (0 < status_code < 400)` where the status code is the writer
status, overridden to 500 (hence not successful) when a panic was
recovered; the usage-event plugin's fallback insert stores
`success = ¬failed ∧ status_code < 400`, and its patch path does not touch
the success column at all. -/
theorem success_flag_amended (g : GinCtx) (durationMs : Int) (requestURL : GoStr)
    (requestHeaders : Headers) (requestBody : GoStr) (recovered : Bool)
    (ev : UsageEvent) (gctx : Option GinCtx) (ts : TimeVal) (d : Int) :
    (patchUsageRecordFinal g durationMs requestURL requestHeaders requestBody
        recovered).success =
      some (finalStatusCode g recovered > 0 && finalStatusCode g recovered < 400) ∧
    (recovered = true →
      (patchUsageRecordFinal g durationMs requestURL requestHeaders requestBody
          recovered).statusCode = some 500 ∧
      (patchUsageRecordFinal g durationMs requestURL requestHeaders requestBody
          recovered).success = some false) ∧
    (∀ r, HandleUsage ev gctx ts d = .enqueueInsert r →
      r.success = (!ev.failed && !(r.statusCode ≥ 400))) ∧
    (∀ id p, HandleUsage ev gctx ts d = .patchPending id p → p.success = none) := by
  refine ⟨rfl, fun hrec => ?_, fun r hr => ?_, fun id p hp => ?_⟩
  · subst hrec
    exact ⟨rfl, by simp [patchUsageRecordFinal, finalStatusCode]⟩
  · simp only [HandleUsage] at hr
    split at hr
    · exact absurd hr (by simp)
    · cases hr; rfl
  · simp only [HandleUsage] at hp
    split at hp
    · cases hp; rfl
    · exact absurd hp (by simp)

/-- Witness for `success_flag_amended`: a recovered panic yields status 500
and `success = false`; a fallback insert of a non-failed event with writer
status 200 yields `success = true`. -/
theorem success_flag_amended_witness :
    (patchUsageRecordFinal {} 0 [] [] [] true).statusCode = some 500 ∧
    (patchUsageRecordFinal {} 0 [] [] [] true).success = some false ∧
    ({ requestID := [], timestamp := ⟨0, 0⟩, statusCode := 200,
       success := true : Rec }).success =
      (!({ failed := false : UsageEvent }).failed &&
        !(({ requestID := [], timestamp := ⟨0, 0⟩, statusCode := 200,
             success := true : Rec }).statusCode ≥ 400)) := by
  refine ⟨((success_flag_amended {} 0 [] [] [] true {} none ⟨0, 0⟩ 0).2.1 rfl).1,
          ((success_flag_amended {} 0 [] [] [] true {} none ⟨0, 0⟩ 0).2.1 rfl).2, ?_⟩
  have h := (success_flag_amended {} 0 [] [] [] true
      { failed := false } (some { writerStatus := 200 }) ⟨0, 0⟩ 0).2.2.1
  exact h _ (by decide)

/-- Trimming the empty string gives the empty string; hence a string with a
non-empty trim is non-empty. -/
theorem goTrimSpace_nil : goTrimSpace ([] : GoStr) = [] := rfl

/-- C6 (counterexample): the claimed fallback order diverges from the code
when a panic is recovered with a blank message: the code skips the blank
panic message and synthesizes `"HTTP 500 Internal Server Error"`, while
the claimed chain stops at the panic message. -/
theorem responseBody_fallback_cex :
    extractResponseBodyBestEffort { writerStatus := 200 } true =
      gs "HTTP 500 Internal Server Error" ∧
    specResponseBodyFallback { writerStatus := 200 } true = [] ∧
    extractResponseBodyBestEffort { writerStatus := 200 } true ≠
      specResponseBodyFallback { writerStatus := 200 } true := by
  refine ⟨by decide, by decide, by decide⟩

/-- Chain step: an optional stage value that is the head candidate when
present (and then non-empty), and leaves an empty head candidate when
absent, commutes with `firstNonEmpty`. -/
theorem firstNonEmpty_step (o : Option GoStr) (c : GoStr) (rest : List GoStr)
    (k : GoStr)
    (h1 : ∀ v, o = some v → c = v ∧ v ≠ [])
    (h2 : o = none → c = [])
    (h3 : k = firstNonEmpty rest) :
    o.getD k = firstNonEmpty (c :: rest) := by
  cases o with
  | some v =>
    rcases h1 v rfl with ⟨hc, hne⟩
    simp [firstNonEmpty, hc, hne]
  | none => simp [firstNonEmpty, h2 rfl, h3]

/-- `firstNonEmpty` of a single candidate is that candidate. -/
theorem firstNonEmpty_single (s : GoStr) : firstNonEmpty [s] = s := by
  by_cases h : s = [] <;> simp [firstNonEmpty, h]

/-- Evaluation of `bodyForLogVal` by the shape of the context value. -/
theorem bodyForLogVal_none (g : GinCtx) (h : g.responseBodyForLog = none) :
    bodyForLogVal g = none := by unfold bodyForLogVal; rw [h]

theorem bodyForLogVal_bytes (g : GinCtx) (b : GoStr)
    (h : g.responseBodyForLog = some (.bytes b)) :
    bodyForLogVal g = if b.length > 0 then some b else none := by
  unfold bodyForLogVal; rw [h]

theorem bodyForLogVal_str (g : GinCtx) (t : GoStr)
    (h : g.responseBodyForLog = some (.str t)) :
    bodyForLogVal g = if goTrimSpace t = [] then none else some t := by
  unfold bodyForLogVal; rw [h]

/-- Evaluation of `apiResponseVal` by the shape of the context value. -/
theorem apiResponseVal_none (g : GinCtx) (h : g.apiResponse = none) :
    apiResponseVal g = none := by unfold apiResponseVal; rw [h]

theorem apiResponseVal_some (g : GinCtx) (b : GoStr) (h : g.apiResponse = some b) :
    apiResponseVal g = if goTrimSpace b = [] then none else some b := by
  unfold apiResponseVal; rw [h]

/-- C6 (amended): the stored response body is the first non-empty candidate
of the fallback chain — captured body, non-blank `API_RESPONSE`, trimmed
panic message when panicked, trimmed framework errors, synthesized
`"HTTP <status> <reason>"` for final status ≥ 400 — and in particular a 502
with no captured body yields `"HTTP 502 Bad Gateway"`. -/
theorem extractResponseBody_amended (g : GinCtx) (recovered : Bool) :
    extractResponseBodyBestEffort g recovered = amendedResponseBodyFallback g recovered ∧
    extractResponseBodyBestEffort { writerStatus := 502 } false =
      gs "HTTP 502 Bad Gateway" := by
  refine ⟨?_, by decide⟩
  unfold extractResponseBodyBestEffort amendedResponseBodyFallback
  apply firstNonEmpty_step
  · intro v hv
    rcases hb : g.responseBodyForLog with _ | (b | t)
    · rw [bodyForLogVal_none g hb] at hv
      exact absurd hv (by simp)
    · rw [bodyForLogVal_bytes g b hb] at hv
      rcases Nat.lt_or_ge 0 b.length with hlen | hlen
      · rw [if_pos hlen] at hv
        cases hv
        exact ⟨rfl, by simpa [← List.length_pos] using hlen⟩
      · rw [if_neg (by omega)] at hv
        exact absurd hv (by simp)
    · rw [bodyForLogVal_str g t hb] at hv
      by_cases ht : goTrimSpace t = []
      · rw [if_pos ht] at hv
        exact absurd hv (by simp)
      · rw [if_neg ht] at hv
        cases hv
        exact ⟨by simp [ht], fun h => ht (h ▸ goTrimSpace_nil)⟩
  · intro hv
    rcases hb : g.responseBodyForLog with _ | (b | t)
    · rfl
    · rw [bodyForLogVal_bytes g b hb] at hv
      rcases Nat.lt_or_ge 0 b.length with hlen | hlen
      · rw [if_pos hlen] at hv; exact absurd hv (by simp)
      · have hbn : b = [] := by
          cases b with
          | nil => rfl
          | cons x xs => simp at hlen
        simp [hbn]
    · rw [bodyForLogVal_str g t hb] at hv
      by_cases ht : goTrimSpace t = []
      · simp [ht]
      · rw [if_neg ht] at hv; exact absurd hv (by simp)
  apply firstNonEmpty_step
  · intro v hv
    rcases ha : g.apiResponse with _ | b
    · rw [apiResponseVal_none g ha] at hv
      exact absurd hv (by simp)
    · rw [apiResponseVal_some g b ha] at hv
      by_cases hb : goTrimSpace b = []
      · rw [if_pos hb] at hv; exact absurd hv (by simp)
      · rw [if_neg hb] at hv
        cases hv
        exact ⟨by simp [hb], fun h => hb (h ▸ goTrimSpace_nil)⟩
  · intro hv
    rcases ha : g.apiResponse with _ | b
    · rfl
    · rw [apiResponseVal_some g b ha] at hv
      by_cases hb : goTrimSpace b = []
      · simp [hb]
      · rw [if_neg hb] at hv; exact absurd hv (by simp)
  apply firstNonEmpty_step
  · intro v hv
    unfold panicStageVal at hv
    cases recovered with
    | false => exact absurd hv (by simp)
    | true =>
      by_cases hp : goTrimSpace g.panicMsg = []
      · simp only [hp, if_pos rfl] at hv
        simp at hv
      · simp only [if_neg hp] at hv
        simp only [if_true] at hv
        cases hv
        exact ⟨rfl, hp⟩
  · intro hv
    unfold panicStageVal at hv
    cases recovered with
    | false => rfl
    | true =>
      by_cases hp : goTrimSpace g.panicMsg = []
      · simpa using hp
      · simp only [if_neg hp] at hv
        simp only [if_true] at hv
        exact absurd hv (by simp)
  apply firstNonEmpty_step
  · intro v hv
    unfold errorsVal at hv
    by_cases he : goTrimSpace g.errorsStr = []
    · simp only [he, if_pos rfl] at hv
      simp at hv
    · simp only [if_neg he] at hv
      cases hv
      exact ⟨rfl, he⟩
  · intro hv
    unfold errorsVal at hv
    by_cases he : goTrimSpace g.errorsStr = []
    · exact he
    · simp only [if_neg he] at hv
      exact absurd hv (by simp)
  exact (firstNonEmpty_single _).symm

/-- C9: the candidate hook drops events with a blank request id or with
both auth identifiers blank; a (trimmed) status outside the allowed set is
replaced according to the success boolean; and a zero status code is
replaced by 200 exactly when the normalized status is `success`. -/
theorem OnCandidate_normalization (now : Int) (c : Candidate) :
    (goTrimSpace c.requestID = [] → OnCandidate now c = none) ∧
    (goTrimSpace c.authID = [] ∧ goTrimSpace c.authFile = [] →
      OnCandidate now c = none) ∧
    (∀ r, OnCandidate now c = some r →
      ((goTrimSpace c.status ≠ gs "pending" ∧ goTrimSpace c.status ≠ gs "success" ∧
        goTrimSpace c.status ≠ gs "failed" ∧ goTrimSpace c.status ≠ gs "skipped") →
        r.status = (if c.success then gs "success" else gs "failed")) ∧
      (c.statusCode = 0 →
        (r.status = gs "success" → r.statusCode = 200) ∧
        (r.status ≠ gs "success" → r.statusCode = c.statusCode))) := by
  refine ⟨fun h => by simp [OnCandidate, h], fun h => ?_, fun r hr => ?_⟩
  · by_cases hq : goTrimSpace c.requestID = []
    · simp [OnCandidate, hq]
    · simp [OnCandidate, hq, h.1, h.2]
  · unfold OnCandidate at hr
    by_cases hq : goTrimSpace c.requestID = []
    · simp [hq] at hr
    · rw [if_neg hq] at hr
      by_cases ha : goTrimSpace c.authID = [] ∧
          (if goTrimSpace c.authFile = [] then goTrimSpace c.authID
           else goTrimSpace c.authFile) = []
      · rw [if_pos ha] at hr
        exact absurd hr (by simp)
      · rw [if_neg ha] at hr
        cases hr
        constructor
        · rintro ⟨h1, h2, h3, h4⟩
          simp [h1, h2, h3, h4]
        · intro hz
          by_cases hs :
              (if goTrimSpace c.status = gs "pending" ∨ goTrimSpace c.status = gs "success" ∨
                  goTrimSpace c.status = gs "failed" ∨ goTrimSpace c.status = gs "skipped"
               then goTrimSpace c.status
               else if c.success then gs "success" else gs "failed") = gs "success"
          · exact ⟨fun _ => by simp [hz, hs], fun hne => absurd (by simpa using hs) hne⟩
          · exact ⟨fun hcontr => absurd (by simpa using hcontr) hs, fun _ => by simp [hs]⟩

/-- Witness for `OnCandidate_normalization`: a blank request id is dropped,
blank auth identifiers are dropped, and a status `"weird"` with
`success = false` and code 0 is normalized to `"failed"` with code 0. -/
theorem OnCandidate_normalization_witness :
    OnCandidate 0 { requestID := gs " " } = none ∧
    OnCandidate 0 { requestID := gs "r" } = none ∧
    ((OnCandidate 0 { requestID := gs "r", authID := gs "a", status := gs "weird" }).getD
        {}).status =
      (if ({ requestID := gs "r", authID := gs "a", status := gs "weird" : Candidate }).success
       then gs "success" else gs "failed") ∧
    ((OnCandidate 0 { requestID := gs "r", authID := gs "a", status := gs "weird" }).getD
        {}).statusCode =
      ({ requestID := gs "r", authID := gs "a", status := gs "weird" : Candidate }).statusCode := by
  have h3 := (OnCandidate_normalization 0
      { requestID := gs "r", authID := gs "a", status := gs "weird" }).2.2
    ((OnCandidate 0 { requestID := gs "r", authID := gs "a", status := gs "weird" }).getD
      {}) (by decide)
  exact ⟨(OnCandidate_normalization 0 _).1 (by decide),
         (OnCandidate_normalization 0 _).2.1 ⟨by decide, by decide⟩,
         h3.1 ⟨by decide, by decide, by decide, by decide⟩,
         (h3.2 (by decide)).2 (by decide)⟩

/-- C4 (counterexample): the claimed Unix-seconds range `[1e9, 1e10)` is
wrong at its lower bound: `"1000000000"` parses as exactly `10^9`, yet
`ParseTimeParam` returns it verbatim instead of converting it, because the
code's range check `ts > 1000000000` is strict. -/
theorem ParseTimeParam_boundary_cex :
    goParseInt (gs "1000000000") = some 1000000000 ∧
    ParseTimeParam 0 (gs "1000000000") = gs "1000000000" ∧
    ParseTimeParam 0 (gs "1000000000") ≠ formatRFC3339Offset 0 1000000000 := by
  refine ⟨by decide, by decide, by decide⟩

/-- C4 (amended): the empty string maps to the empty string; a string that
parses as a Unix-seconds integer strictly between `10^9` and
`9999999999` is converted to local RFC3339; a string accepted by none of
the parsers is returned verbatim. -/
theorem ParseTimeParam_behavior (tz : Int) (s : GoStr) (ts : Int) :
    ParseTimeParam tz [] = [] ∧
    (goParseInt s = some ts → 1000000000 < ts → ts < 9999999999 →
      ParseTimeParam tz s = formatRFC3339Offset tz ts) ∧
    ((∀ n, goParseInt s = some n → ¬(1000000000 < n ∧ n < 9999999999)) →
      parseRFC3339 s = none → parseISOms s = none → parseISOsec s = none →
      ParseTimeParam tz s = s) := by
  refine ⟨rfl, fun hp h1 h2 => ?_, fun hn h3 h4 h5 => ?_⟩
  · have hne : s ≠ [] := by
      intro h
      rw [h] at hp
      simp [goParseInt, digitsToNat] at hp
    unfold ParseTimeParam
    rw [if_neg hne, hp]
    simp only [Option.getD_some]
    rw [if_pos (by simp [h1, h2])]
  · by_cases hne : s = []
    · rw [hne]; rfl
    · unfold ParseTimeParam
      rw [if_neg hne]
      have hunix : (match goParseInt s with
          | some ts => 1000000000 < ts && ts < 9999999999
          | none => false) = false := by
        cases hg : goParseInt s with
        | none => rfl
        | some n =>
          have := hn n hg
          simp only [Bool.and_eq_false_iff, decide_eq_false_iff_not]
          omega
      rw [hunix]
      simp only [Bool.false_eq_true, if_false]
      rw [h3, h4, h5]

/-- Witness for `ParseTimeParam_behavior`: a concrete in-range Unix
timestamp is converted, and a non-numeric, non-date string passes through
verbatim. -/
theorem ParseTimeParam_behavior_witness :
    ParseTimeParam 28800 (gs "1736582400") = formatRFC3339Offset 28800 1736582400 ∧
    ParseTimeParam 28800 (gs "not-a-time") = gs "not-a-time" :=
  ⟨((ParseTimeParam_behavior 28800 (gs "1736582400") 1736582400).2.1
      (by decide) (by decide) (by decide)),
   ((ParseTimeParam_behavior 28800 (gs "not-a-time") 0).2.2
      (by decide) (by decide) (by decide) (by decide))⟩

/-- C7: on an open store with a valid id, an all-nil patch performs no
write and returns 0 rows affected with no error and the state (cache
included) untouched; a non-empty patch updates exactly the rows with the
given id, reports their count, and invalidates the query cache; the
dynamic `UPDATE` overwrites precisely the non-nil columns of a matched row
and leaves every other column (and every other row) unchanged. -/
theorem PatchByID_frame (st : StoreState) (id : Int) (p : RecordPatch)
    (hopen : st.closed = false) (hid : 0 < id) :
    (patchIsEmpty p = true → PatchByID st id p = .ok (0, st)) ∧
    (patchIsEmpty p = false →
      PatchByID st id p =
        .ok (((st.rows.filter (fun r => r.id = id)).length : Int),
          { rows := st.rows.map (fun r => if r.id = id then applyPatch p r else r),
            closed := st.closed, cacheValid := false })) ∧
    (∀ r : Row, r.id ≠ id → (if r.id = id then applyPatch p r else r) = r) ∧
    (∀ r : Row,
      (applyPatch p r).id = r.id ∧
      (applyPatch p r).requestID = r.requestID ∧
      (applyPatch p r).createdAt = r.createdAt ∧
      (applyPatch p r).timestamp =
        (match p.timestamp with | some tv => fmtTime tv | none => r.timestamp) ∧
      (applyPatch p r).ip = p.ip.getD r.ip ∧
      (applyPatch p r).apiKey = p.apiKey.getD r.apiKey ∧
      (applyPatch p r).apiKeyMasked = p.apiKeyMasked.getD r.apiKeyMasked ∧
      (applyPatch p r).model = p.model.getD r.model ∧
      (applyPatch p r).provider = p.provider.getD r.provider ∧
      (applyPatch p r).isStreaming =
        (match p.isStreaming with | some b => boolToInt b | none => r.isStreaming) ∧
      (applyPatch p r).inputTokens = p.inputTokens.getD r.inputTokens ∧
      (applyPatch p r).outputTokens = p.outputTokens.getD r.outputTokens ∧
      (applyPatch p r).totalTokens = p.totalTokens.getD r.totalTokens ∧
      (applyPatch p r).cachedTokens = p.cachedTokens.getD r.cachedTokens ∧
      (applyPatch p r).reasoningTokens = p.reasoningTokens.getD r.reasoningTokens ∧
      (applyPatch p r).durationMs = p.durationMs.getD r.durationMs ∧
      (applyPatch p r).statusCode = p.statusCode.getD r.statusCode ∧
      (applyPatch p r).success =
        (match p.success with | some b => boolToInt b | none => r.success) ∧
      (applyPatch p r).requestURL = p.requestURL.getD r.requestURL ∧
      (applyPatch p r).requestMethod = p.requestMethod.getD r.requestMethod ∧
      (applyPatch p r).requestHeaders =
        (match p.requestHeaders with | some h => jsonObj h | none => r.requestHeaders) ∧
      (applyPatch p r).requestBody = p.requestBody.getD r.requestBody ∧
      (applyPatch p r).responseHeaders =
        (match p.responseHeaders with | some h => jsonObj h | none => r.responseHeaders) ∧
      (applyPatch p r).responseBody = p.responseBody.getD r.responseBody) := by
  refine ⟨fun hemp => ?_, fun hne => ?_, fun r hne => if_neg hne, fun r => ?_⟩
  · unfold PatchByID
    rw [hopen]
    rw [if_neg (by simp), if_neg (by omega), if_pos hemp]
  · unfold PatchByID
    rw [hopen]
    rw [if_neg (by simp), if_neg (by omega), if_neg (by simp [hne])]
  · exact ⟨rfl, rfl, rfl, rfl, rfl, rfl, rfl, rfl, rfl, rfl, rfl, rfl, rfl, rfl,
      rfl, rfl, rfl, rfl, rfl, rfl, rfl, rfl, rfl, rfl⟩

/-- Witness for `PatchByID_frame`: a concrete one-row store, an empty patch
(no-op) and an ip-only patch (one row affected, cache invalidated). -/
theorem PatchByID_frame_witness :
    PatchByID { rows := [{ id := 1 }], closed := false, cacheValid := true } 1 {} =
      .ok (0, { rows := [{ id := 1 }], closed := false, cacheValid := true }) ∧
    patchResultAffected
      (PatchByID { rows := [{ id := 1 }], closed := false, cacheValid := true } 1
        { ip := some (gs "9.9.9.9") }) = some 1 ∧
    (patchResultState
      (PatchByID { rows := [{ id := 1 }], closed := false, cacheValid := true } 1
        { ip := some (gs "9.9.9.9") })).map (fun st => st.cacheValid) = some false := by
  have h1 := (PatchByID_frame
      { rows := [{ id := 1 }], closed := false, cacheValid := true } 1 {} rfl
      (by omega)).1 (by decide)
  have h2 := (PatchByID_frame
      { rows := [{ id := 1 }], closed := false, cacheValid := true } 1
      { ip := some (gs "9.9.9.9") } rfl (by omega)).2.1 (by decide)
  refine ⟨h1, ?_, ?_⟩
  · rw [h2]; decide
  · rw [h2]; decide

/-- Ceiling division over ℚ computed by the `(m + k - 1) / k` idiom. -/
theorem ceil_ratCast_div (m k : Nat) (hk : 0 < k) :
    ⌈(m : ℚ) / (k : ℚ)⌉ = (((m + k - 1) / k : Nat) : Int) := by
  have hA : (m + k - 1) / k * k ≤ m + k - 1 := Nat.div_mul_le_self _ _
  have hB : m + k - 1 < ((m + k - 1) / k + 1) * k :=
    (Nat.div_lt_iff_lt_mul hk).mp (Nat.lt_succ_self _)
  have h1k : 1 ≤ m + k := by omega
  set n := (m + k - 1) / k with hn
  have hA' : (n : ℤ) * k ≤ (m : ℤ) + k - 1 := by zify [h1k] at hA; exact hA
  have hB' : (m : ℤ) + k - 1 < ((n : ℤ) + 1) * k := by zify [h1k] at hB; exact hB
  rw [add_mul, one_mul] at hB'
  have hm_le : (m : ℤ) ≤ n * k := by linarith
  have hm_gt : ((n : ℤ) - 1) * k < m := by rw [sub_mul, one_mul]; linarith
  rw [Int.ceil_eq_iff]
  have hkq : (0 : ℚ) < (k : ℚ) := by exact_mod_cast hk
  exact ⟨by rw [lt_div_iff₀ hkq]; exact_mod_cast hm_gt,
         by rw [div_le_iff₀ hkq]; exact_mod_cast hm_le⟩

/-- C8: `List` coerces the page to ≥ 1 and the page size into `[1, 100]`
(20 for non-positive requests), returns at most `page_size` records,
reports the filtered total, and computes
`total_pages = ⌈total / page_size⌉`; no pagination input produces an
error. -/
theorem listRecords_pagination (tz : Int) (rows : List Row) (q : ListQuery) :
    1 ≤ (listRecords tz rows q).page ∧
    1 ≤ (listRecords tz rows q).pageSize ∧ (listRecords tz rows q).pageSize ≤ 100 ∧
    (q.pageSize < 1 → (listRecords tz rows q).pageSize = 20) ∧
    (1 ≤ q.pageSize → q.pageSize ≤ 100 → (listRecords tz rows q).pageSize = q.pageSize) ∧
    ((listRecords tz rows q).records.length : Int) ≤ (listRecords tz rows q).pageSize ∧
    (listRecords tz rows q).total = ((rows.filter (matchesWhere tz q)).length : Int) ∧
    (listRecords tz rows q).totalPages =
      ⌈((listRecords tz rows q).total : ℚ) / ((listRecords tz rows q).pageSize : ℚ)⌉ := by
  unfold listRecords
  dsimp only
  refine ⟨?_, ?_, ?_, ?_, ?_, ?_, rfl, ?_⟩
  · split_ifs <;> omega
  · split_ifs <;> omega
  · split_ifs <;> omega
  · intro h; split_ifs <;> omega
  · intro h1 h2; split_ifs <;> omega
  · have hps : 1 ≤ (if (if q.pageSize < 1 then 20 else q.pageSize) > 100 then 100
        else if q.pageSize < 1 then 20 else q.pageSize) := by split_ifs <;> omega
    set ps := (if (if q.pageSize < 1 then 20 else q.pageSize) > 100 then 100
        else if q.pageSize < 1 then 20 else q.pageSize) with hdefps
    calc ((List.take ps.toNat _).length : Int)
        ≤ (ps.toNat : Int) := by exact_mod_cast List.length_take_le _ _
      _ = ps := Int.toNat_of_nonneg (by omega)
  · have hps : 1 ≤ (if (if q.pageSize < 1 then 20 else q.pageSize) > 100 then 100
        else if q.pageSize < 1 then 20 else q.pageSize) := by split_ifs <;> omega
    set ps := (if (if q.pageSize < 1 then 20 else q.pageSize) > 100 then 100
        else if q.pageSize < 1 then 20 else q.pageSize) with hdefps
    set m := (rows.filter (matchesWhere tz q)).length with hdefm
    have hk : (ps.toNat : ℤ) = ps := Int.toNat_of_nonneg (by omega)
    set k := ps.toNat with hdefk
    rw [← hk]
    have e1 : (↑m + (↑k : ℤ) - 1) = ((m + k - 1 : Nat) : ℤ) := by omega
    rw [e1, ← Int.ofNat_tdiv, ← ceil_ratCast_div m k (by omega)]
    simp only [Int.cast_natCast]

/-- Witness for `listRecords_pagination`: a non-positive page size defaults
to 20, an in-range one is kept. -/
theorem listRecords_pagination_witness :
    (listRecords 0 [] { pageSize := 0 }).pageSize = 20 ∧
    (listRecords 0 [] { pageSize := 50 }).pageSize = 50 :=
  ⟨(listRecords_pagination 0 [] { pageSize := 0 }).2.2.2.1 (by decide),
   (listRecords_pagination 0 [] { pageSize := 50 }).2.2.2.2.1 (by decide) (by decide)⟩

/-- Facts about one dense series: its length is the number of buckets
intersecting `[s, e]`, each emitted value is the aggregate of the rows of
its bucket (zero-filled by the empty aggregate), the emitted bucket set is
exactly the buckets intersecting `[s, e]` (each exactly once), and the keys
are strictly increasing. -/
theorem denseSeries_facts (w : Int) (rows : List KRow) (s e : Int)
    (f : List KRow → Int) (hw : 0 < w) (hse : s ≤ e) :
    (denseSeries w rows s e f).length = ((e.ediv w - s.ediv w).toNat + 1) ∧
    (∀ h v, (h, v) ∈ denseSeries w rows s e f →
      v = f (rows.filter (fun r => r.ts.ediv w = h))) ∧
    (∀ h : Int, (∃ v, (h, v) ∈ denseSeries w rows s e f) ↔
      (s.ediv w ≤ h ∧ h ≤ e.ediv w)) ∧
    List.Pairwise (fun a b : Int × Int => a.1 < b.1) (denseSeries w rows s e f) := by
  have hdiv : s.ediv w ≤ e.ediv w := Int.ediv_le_ediv hw hse
  have hlab : bucketLabels w s e =
      (List.range ((e.ediv w - s.ediv w).toNat + 1)).map (fun (i : Nat) => s.ediv w + (i : Int)) := by
    unfold bucketLabels
    rw [if_pos hdiv]
  refine ⟨?_, ?_, ?_, ?_⟩
  · unfold denseSeries
    rw [hlab]
    simp
  · intro h v hm
    unfold denseSeries at hm
    rcases List.mem_map.mp hm with ⟨h', hh', heq⟩
    cases heq
    rfl
  · intro h
    unfold denseSeries
    rw [hlab]
    constructor
    · rintro ⟨v, hv⟩
      rcases List.mem_map.mp hv with ⟨h', hh', heq⟩
      rcases List.mem_map.mp hh' with ⟨i, hi, hieq⟩
      rw [List.mem_range] at hi
      cases heq
      omega
    · rintro ⟨h1, h2⟩
      refine ⟨f (rows.filter (fun r => r.ts.ediv w = h)), ?_⟩
      apply List.mem_map.mpr
      refine ⟨h, ?_, rfl⟩
      apply List.mem_map.mpr
      refine ⟨(h - s.ediv w).toNat, ?_, by omega⟩
      rw [List.mem_range]
      omega
  · unfold denseSeries
    rw [hlab]
    apply List.Pairwise.map
    · intro a b hab
      exact hab
    · apply List.Pairwise.map (R := fun a b : Nat => a < b)
      · intro a b hab
        simp only
        omega
      · exact List.pairwise_lt_range _

/-- C5: `GetUsageKPIs` picks the `hour` bucket exactly when the resolved
window is at most 48 hours (`day` otherwise; the resolved window always has
`start ≤ end`), and emits `requests_trend` and `tokens_trend` as dense,
zero-filled series with exactly one point per bucket intersecting
`[start, end]`; a window of exactly 48 hours uses `hour` buckets and emits
49 points. -/
theorem GetUsageKPIs_trend (rows : List KRow) (s e : Int) (hse : s ≤ e) :
    (∀ (so eo : Option Int) (now : Int),
      (resolveTrendWindow so eo now).1 ≤ (resolveTrendWindow so eo now).2) ∧
    (e - s ≤ 172800 → trendBucket s e = gs "hour" ∧ bucketWidth s e = 3600) ∧
    (172800 < e - s → trendBucket s e = gs "day" ∧ bucketWidth s e = 86400) ∧
    (requestsTrend rows s e).length =
      ((e.ediv (bucketWidth s e) - s.ediv (bucketWidth s e)).toNat + 1) ∧
    (tokensTrend rows s e).length =
      ((e.ediv (bucketWidth s e) - s.ediv (bucketWidth s e)).toNat + 1) ∧
    (∀ h v, (h, v) ∈ requestsTrend rows s e →
      v = ((rows.filter (fun r => r.ts.ediv (bucketWidth s e) = h)).length : Int)) ∧
    (∀ h v, (h, v) ∈ tokensTrend rows s e →
      v = ((rows.filter (fun r => r.ts.ediv (bucketWidth s e) = h)).map kTokens).sum) ∧
    (∀ h : Int, (∃ v, (h, v) ∈ requestsTrend rows s e) ↔
      (s.ediv (bucketWidth s e) ≤ h ∧ h ≤ e.ediv (bucketWidth s e))) ∧
    List.Pairwise (fun a b : Int × Int => a.1 < b.1) (requestsTrend rows s e) ∧
    (e - s = 172800 →
      trendBucket s e = gs "hour" ∧ (requestsTrend rows s e).length = 49) := by
  have hw : 0 < bucketWidth s e := by
    unfold bucketWidth
    split_ifs <;> omega
  have hreq := denseSeries_facts (bucketWidth s e) rows s e
    (fun rs => (rs.length : Int)) hw hse
  have htok := denseSeries_facts (bucketWidth s e) rows s e
    (fun rs => (rs.map kTokens).sum) hw hse
  have hhour : e - s ≤ 172800 → trendBucket s e = gs "hour" := by
    intro h
    unfold trendBucket
    rw [if_neg (by omega)]
  refine ⟨?_, fun h => ⟨hhour h, ?_⟩, fun h => ?_, hreq.1, htok.1, hreq.2.1,
    htok.2.1, hreq.2.2.1, hreq.2.2.2, fun h48 => ⟨hhour (by omega), ?_⟩⟩
  · intro so eo now
    unfold resolveTrendWindow
    dsimp only
    split_ifs <;> omega
  · unfold bucketWidth
    rw [hhour h]
    rw [if_neg (by decide)]
  · have hd : trendBucket s e = gs "day" := by
      unfold trendBucket
      rw [if_pos (by omega)]
    refine ⟨hd, ?_⟩
    unfold bucketWidth
    rw [hd, if_pos rfl]
  · have hwidth : bucketWidth s e = 3600 := by
      unfold bucketWidth
      rw [hhour (by omega), if_neg (by decide)]
    unfold requestsTrend
    rw [hwidth]
    have hlen := hreq.1
    rw [hwidth] at hlen
    rw [hlen]
    have he : e = s + 48 * 3600 := by omega
    rw [he]
    show ((s + 48 * 3600) / 3600 - s / 3600).toNat + 1 = 49
    omega

/-- Witness for `GetUsageKPIs_trend`: a 48-hour window uses hour buckets
and yields exactly 49 trend points. -/
theorem GetUsageKPIs_trend_witness :
    trendBucket 0 172800 = gs "hour" ∧ (requestsTrend [] 0 172800).length = 49 :=
  (GetUsageKPIs_trend [] 0 172800 (by omega)).2.2.2.2.2.2.2.2.2 (by omega)

/-! ### Lemmas about the binary64 model

`ilog2q_spec` characterizes the exponent; `rhe` is monotone and within a
half of its argument; `roundPos`/`roundD` are monotone, sign-preserving,
exact on integers below `2^53`, and within relative error `uEps = 2^-53`
on the normal range. From these: the `interval > 120` float filter agrees
with `Δsec > 7200` on second-granular inputs, `int(interval*100)` is
within one (below) of the exact `⌊Δsec·5/3⌋`, and the float sampling
index is nonnegative, monotone in `i`, and (for `limit ≤ 10000 < len <
2^53`) always within bounds. -/

theorem two_zpow_pos (e : ℤ) : (0 : ℚ) < (2 : ℚ) ^ e := zpow_pos (by norm_num) e

theorem pow2_cast (n : ℕ) : ((2 ^ n : ℕ) : ℚ) = (2 : ℚ) ^ (n : ℤ) := by
  push_cast
  rw [zpow_natCast]

theorem ilog2q_spec (q : ℚ) (hq : 0 < q) :
    (2 : ℚ) ^ ilog2q q ≤ q ∧ q < (2 : ℚ) ^ (ilog2q q + 1) := by
  have hden : 0 < q.den := q.den_pos
  have hnum : 0 < q.num := Rat.num_pos.mpr hq
  simp only [ilog2q]
  set a := q.num.toNat with ha
  set b := q.den with hb
  have ha0 : 0 < a := by rw [ha]; omega
  have hcast : ((a : ℕ) : ℚ) = (q.num : ℚ) := by
    have h := Int.toNat_of_nonneg hnum.le
    rw [ha]
    exact_mod_cast congrArg (fun z : ℤ => (z : ℚ)) h
  have hq_eq : ((a : ℕ) : ℚ) / ((b : ℕ) : ℚ) = q := by
    rw [hcast, hb]
    exact Rat.num_div_den q
  have hbq : (0 : ℚ) < (b : ℚ) := by exact_mod_cast hden
  have haq : (0 : ℚ) < (a : ℚ) := by exact_mod_cast ha0
  rcases le_or_lt b a with hba | hab
  · rw [if_pos hba]
    have ht : 0 < a / b := Nat.div_pos hba hden
    have h1 : 2 ^ Nat.log 2 (a / b) ≤ a / b := Nat.pow_log_le_self 2 ht.ne'
    have h2 : a / b < 2 ^ (Nat.log 2 (a / b) + 1) :=
      Nat.lt_pow_succ_log_self (by norm_num) (a / b)
    have hdiv1 : a / b * b ≤ a := Nat.div_mul_le_self a b
    have hdiv2 : a < (a / b + 1) * b :=
      (Nat.div_lt_iff_lt_mul hden).mp (Nat.lt_succ_self _)
    constructor
    · rw [← hq_eq, ← pow2_cast, le_div_iff₀ hbq]
      have : 2 ^ Nat.log 2 (a / b) * b ≤ a := le_trans (Nat.mul_le_mul_right b h1) hdiv1
      exact_mod_cast this
    · rw [← hq_eq, div_lt_iff₀ hbq]
      have hz : ((Nat.log 2 (a / b) : ℕ) : ℤ) + 1 = ((Nat.log 2 (a / b) + 1 : ℕ) : ℤ) := by
        push_cast; ring
      rw [hz, ← pow2_cast]
      have : a < 2 ^ (Nat.log 2 (a / b) + 1) * b := by
        calc a < (a / b + 1) * b := hdiv2
          _ ≤ 2 ^ (Nat.log 2 (a / b) + 1) * b := Nat.mul_le_mul_right b (by omega)
      exact_mod_cast this
  · rw [if_neg (not_le.mpr hab)]
    have hf : 0 < b / a := Nat.div_pos hab.le ha0
    have h1 : 2 ^ Nat.log 2 (b / a) ≤ b / a := Nat.pow_log_le_self 2 hf.ne'
    have h2 : b / a < 2 ^ (Nat.log 2 (b / a) + 1) :=
      Nat.lt_pow_succ_log_self (by norm_num) (b / a)
    have hdiv1 : b / a * a ≤ b := Nat.div_mul_le_self b a
    have hdiv2 : b < (b / a + 1) * a :=
      (Nat.div_lt_iff_lt_mul ha0).mp (Nat.lt_succ_self _)
    set m := Nat.log 2 (b / a) with hm
    have hlow : a * 2 ^ m ≤ b := by
      calc a * 2 ^ m = 2 ^ m * a := Nat.mul_comm _ _
        _ ≤ b / a * a := Nat.mul_le_mul_right a h1
        _ ≤ b := hdiv1
    have hhigh : b < 2 ^ (m + 1) * a := by
      calc b < (b / a + 1) * a := hdiv2
        _ ≤ 2 ^ (m + 1) * a := Nat.mul_le_mul_right a (by omega)
    have hzneg : (2 : ℚ) ^ (-(m : ℤ)) = 1 / ((2 ^ m : ℕ) : ℚ) := by
      rw [zpow_neg, ← pow2_cast, one_div]
    have hpowq : (0 : ℚ) < ((2 ^ m : ℕ) : ℚ) := by
      exact_mod_cast Nat.pos_pow_of_pos m (by norm_num)
    rcases le_or_lt b (a * 2 ^ m) with hsplit | hsplit
    · rw [if_pos hsplit]
      constructor
      · rw [← hq_eq, hzneg, div_le_div_iff₀ hpowq hbq, one_mul]
        calc ((b : ℕ) : ℚ) ≤ ((a * 2 ^ m : ℕ) : ℚ) := by exact_mod_cast hsplit
          _ = (a : ℚ) * ((2 ^ m : ℕ) : ℚ) := by push_cast; ring
      · rw [← hq_eq]
        have he : (2 : ℚ) ^ (-(m : ℤ) + 1) = 2 / ((2 ^ m : ℕ) : ℚ) := by
          rw [zpow_add₀ (by norm_num : (2 : ℚ) ≠ 0), hzneg, zpow_one]
          ring
        rw [he, div_lt_div_iff₀ hbq hpowq]
        have hb2 : a * 2 ^ m < 2 * b := by
          have : 0 < b := hden
          omega
        calc (a : ℚ) * ((2 ^ m : ℕ) : ℚ) = ((a * 2 ^ m : ℕ) : ℚ) := by push_cast; ring
          _ < ((2 * b : ℕ) : ℚ) := by exact_mod_cast hb2
          _ = 2 * (b : ℚ) := by push_cast; ring
    · rw [if_neg (not_le.mpr hsplit)]
      have hzneg1 : (2 : ℚ) ^ (-(m : ℤ) - 1) = 1 / ((2 ^ (m + 1) : ℕ) : ℚ) := by
        have h : -(m : ℤ) - 1 = -((m + 1 : ℕ) : ℤ) := by push_cast; ring
        rw [h, zpow_neg, ← pow2_cast, one_div]
      have hpowq1 : (0 : ℚ) < ((2 ^ (m + 1) : ℕ) : ℚ) := by
        exact_mod_cast Nat.pos_pow_of_pos (m + 1) (by norm_num)
      constructor
      · rw [← hq_eq, hzneg1, div_le_div_iff₀ hpowq1 hbq, one_mul]
        have hble : b ≤ a * 2 ^ (m + 1) := by
          have h21 : 2 ^ (m + 1) * a = a * 2 ^ (m + 1) := Nat.mul_comm _ _
          omega
        calc ((b : ℕ) : ℚ) ≤ ((a * 2 ^ (m + 1) : ℕ) : ℚ) := by exact_mod_cast hble
          _ = (a : ℚ) * ((2 ^ (m + 1) : ℕ) : ℚ) := by push_cast; ring
      · rw [← hq_eq]
        have he : -(m : ℤ) - 1 + 1 = -(m : ℤ) := by ring
        rw [he, hzneg, div_lt_div_iff₀ hbq hpowq]
        calc (a : ℚ) * ((2 ^ m : ℕ) : ℚ) = ((a * 2 ^ m : ℕ) : ℚ) := by push_cast; ring
          _ < ((b : ℕ) : ℚ) := by exact_mod_cast hsplit
          _ = 1 * (b : ℚ) := by ring

theorem rhe_ge_floor (x : ℚ) : ⌊x⌋ ≤ rhe x := by
  simp only [rhe]
  split_ifs <;> omega

theorem rhe_le_floor_add_one (x : ℚ) : rhe x ≤ ⌊x⌋ + 1 := by
  simp only [rhe]
  split_ifs <;> omega

theorem rhe_lb (x : ℚ) : x - 1 / 2 ≤ (rhe x : ℚ) := by
  have h1 := Int.floor_le x
  have h2 := Int.lt_floor_add_one x
  simp only [rhe]
  split_ifs <;> push_cast <;> linarith

theorem rhe_ub (x : ℚ) : (rhe x : ℚ) ≤ x + 1 / 2 := by
  have h1 := Int.floor_le x
  have h2 := Int.lt_floor_add_one x
  simp only [rhe]
  split_ifs with ha hb hc <;> push_cast <;> linarith

theorem rhe_mono {x y : ℚ} (h : x ≤ y) : rhe x ≤ rhe y := by
  have hf : ⌊x⌋ ≤ ⌊y⌋ := Int.floor_le_floor h
  rcases eq_or_lt_of_le hf with heq | hlt
  · simp only [rhe, ← heq]
    split_ifs <;> first | omega | linarith
  · calc rhe x ≤ ⌊x⌋ + 1 := rhe_le_floor_add_one x
      _ ≤ ⌊y⌋ := by omega
      _ ≤ rhe y := rhe_ge_floor y

theorem rhe_intCast (n : ℤ) : rhe (n : ℚ) = n := by
  simp only [rhe, Int.floor_intCast, sub_self]
  norm_num

theorem zpow52 : (2 : ℚ) ^ (52 : ℤ) = ((4503599627370496 : ℤ) : ℚ) := by
  rw [show (52 : ℤ) = ((52 : ℕ) : ℤ) from rfl, zpow_natCast]
  norm_num

theorem zpow53 : (2 : ℚ) ^ (53 : ℤ) = ((9007199254740992 : ℤ) : ℚ) := by
  rw [show (53 : ℤ) = ((53 : ℕ) : ℤ) from rfl, zpow_natCast]
  norm_num

theorem roundPos_scaled (q : ℚ) (hq : 0 < q) :
    (2 : ℚ) ^ (52 : ℤ) ≤ q * (2 : ℚ) ^ (52 - ilog2q q) ∧
      q * (2 : ℚ) ^ (52 - ilog2q q) < (2 : ℚ) ^ (53 : ℤ) := by
  obtain ⟨h1, h2⟩ := ilog2q_spec q hq
  have hsum1 : (2 : ℚ) ^ ilog2q q * (2 : ℚ) ^ (52 - ilog2q q) = (2 : ℚ) ^ (52 : ℤ) := by
    rw [← zpow_add₀ (by norm_num : (2 : ℚ) ≠ 0)]
    congr 1
    ring
  have hsum2 : (2 : ℚ) ^ (ilog2q q + 1) * (2 : ℚ) ^ (52 - ilog2q q) = (2 : ℚ) ^ (53 : ℤ) := by
    rw [← zpow_add₀ (by norm_num : (2 : ℚ) ≠ 0)]
    congr 1
    ring
  constructor
  · rw [← hsum1]
    exact mul_le_mul_of_nonneg_right h1 (two_zpow_pos _).le
  · rw [← hsum2]
    exact mul_lt_mul_of_pos_right h2 (two_zpow_pos _)

theorem roundPos_cancel (q : ℚ) :
    (2 : ℚ) ^ (52 - ilog2q q) * (2 : ℚ) ^ (ilog2q q - 52) = 1 := by
  rw [← zpow_add₀ (by norm_num : (2 : ℚ) ≠ 0)]
  have h : 52 - ilog2q q + (ilog2q q - 52) = 0 := by ring
  rw [h, zpow_zero]

theorem uEps_eq : uEps = (2 : ℚ) ^ (-53 : ℤ) := by
  rw [show (-53 : ℤ) = -((53 : ℕ) : ℤ) by norm_num, zpow_neg, ← pow2_cast]
  norm_num [uEps]

theorem half_step (q : ℚ) (hq : 0 < q) :
    (2 : ℚ) ^ (ilog2q q - 52) * (1 / 2) ≤ q * uEps := by
  have h1 := (ilog2q_spec q hq).1
  have he : (2 : ℚ) ^ (ilog2q q - 52) * (1 / 2) = (2 : ℚ) ^ ilog2q q * (2 : ℚ) ^ (-53 : ℤ) := by
    rw [← zpow_add₀ (by norm_num : (2 : ℚ) ≠ 0)]
    have h : ilog2q q - 52 + -1 = ilog2q q + -53 := by ring
    calc (2 : ℚ) ^ (ilog2q q - 52) * (1 / 2)
        = (2 : ℚ) ^ (ilog2q q - 52) * (2 : ℚ) ^ (-1 : ℤ) := by norm_num
      _ = (2 : ℚ) ^ (ilog2q q - 52 + -1) := by
          rw [zpow_add₀ (by norm_num : (2 : ℚ) ≠ 0)]
      _ = (2 : ℚ) ^ (ilog2q q + -53) := by rw [h]
  rw [he, uEps_eq]
  exact mul_le_mul_of_nonneg_right h1 (two_zpow_pos _).le

theorem roundPos_le (q : ℚ) (hq : 0 < q) : roundPos q ≤ q * (1 + uEps) := by
  have hub := rhe_ub (q * (2 : ℚ) ^ (52 - ilog2q q))
  have hpos := two_zpow_pos (ilog2q q - 52)
  have hc := roundPos_cancel q
  have hh := half_step q hq
  calc roundPos q
      = (rhe (q * (2 : ℚ) ^ (52 - ilog2q q)) : ℚ) * (2 : ℚ) ^ (ilog2q q - 52) := rfl
    _ ≤ (q * (2 : ℚ) ^ (52 - ilog2q q) + 1 / 2) * (2 : ℚ) ^ (ilog2q q - 52) :=
        mul_le_mul_of_nonneg_right hub hpos.le
    _ = q * ((2 : ℚ) ^ (52 - ilog2q q) * (2 : ℚ) ^ (ilog2q q - 52)) +
          (2 : ℚ) ^ (ilog2q q - 52) * (1 / 2) := by ring
    _ = q + (2 : ℚ) ^ (ilog2q q - 52) * (1 / 2) := by rw [hc]; ring
    _ ≤ q + q * uEps := by linarith
    _ = q * (1 + uEps) := by ring

theorem roundPos_ge (q : ℚ) (hq : 0 < q) : q * (1 - uEps) ≤ roundPos q := by
  have hlb := rhe_lb (q * (2 : ℚ) ^ (52 - ilog2q q))
  have hpos := two_zpow_pos (ilog2q q - 52)
  have hc := roundPos_cancel q
  have hh := half_step q hq
  calc q * (1 - uEps) = q - q * uEps := by ring
    _ ≤ q - (2 : ℚ) ^ (ilog2q q - 52) * (1 / 2) := by linarith
    _ = q * ((2 : ℚ) ^ (52 - ilog2q q) * (2 : ℚ) ^ (ilog2q q - 52)) -
          (2 : ℚ) ^ (ilog2q q - 52) * (1 / 2) := by rw [hc]; ring
    _ = (q * (2 : ℚ) ^ (52 - ilog2q q) - 1 / 2) * (2 : ℚ) ^ (ilog2q q - 52) := by ring
    _ ≤ (rhe (q * (2 : ℚ) ^ (52 - ilog2q q)) : ℚ) * (2 : ℚ) ^ (ilog2q q - 52) :=
        mul_le_mul_of_nonneg_right (by linarith [hlb]) hpos.le
    _ = roundPos q := rfl

theorem uEps_pos : (0 : ℚ) < uEps := by norm_num [uEps]

theorem uEps_lt_one : uEps < 1 := by norm_num [uEps]

theorem roundPos_pos (q : ℚ) (hq : 0 < q) : 0 < roundPos q := by
  have h := roundPos_ge q hq
  have h1 : 0 < q * (1 - uEps) := by
    apply mul_pos hq
    linarith [uEps_lt_one]
  linarith

theorem roundPos_mono (q1 q2 : ℚ) (h1 : 0 < q1) (h : q1 ≤ q2) :
    roundPos q1 ≤ roundPos q2 := by
  have h2 : 0 < q2 := lt_of_lt_of_le h1 h
  have he : ilog2q q1 ≤ ilog2q q2 := by
    by_contra hcon
    push_neg at hcon
    have ha := (ilog2q_spec q1 h1).1
    have hb := (ilog2q_spec q2 h2).2
    have hz : (2 : ℚ) ^ (ilog2q q2 + 1) ≤ (2 : ℚ) ^ ilog2q q1 := by
      apply zpow_le_zpow_right₀ (by norm_num : (1 : ℚ) ≤ 2)
      omega
    linarith
  rcases eq_or_lt_of_le he with heq | hlt
  · have hs : q1 * (2 : ℚ) ^ (52 - ilog2q q1) ≤ q2 * (2 : ℚ) ^ (52 - ilog2q q2) := by
      rw [← heq]
      exact mul_le_mul_of_nonneg_right h (two_zpow_pos _).le
    have hr := rhe_mono hs
    calc roundPos q1
        = (rhe (q1 * (2 : ℚ) ^ (52 - ilog2q q1)) : ℚ) * (2 : ℚ) ^ (ilog2q q1 - 52) := rfl
      _ ≤ (rhe (q2 * (2 : ℚ) ^ (52 - ilog2q q2)) : ℚ) * (2 : ℚ) ^ (ilog2q q1 - 52) := by
          apply mul_le_mul_of_nonneg_right _ (two_zpow_pos _).le
          exact_mod_cast hr
      _ = roundPos q2 := by rw [heq]; rfl
  · have hup : roundPos q1 ≤ (2 : ℚ) ^ (ilog2q q1 + 1) := by
      have hs2 := (roundPos_scaled q1 h1).2
      rw [zpow53] at hs2
      have hr : rhe (q1 * (2 : ℚ) ^ (52 - ilog2q q1)) ≤ 9007199254740992 := by
        have hmono := rhe_mono hs2.le
        rwa [rhe_intCast] at hmono
      have hsum : ((9007199254740992 : ℤ) : ℚ) * (2 : ℚ) ^ (ilog2q q1 - 52) =
          (2 : ℚ) ^ (ilog2q q1 + 1) := by
        rw [← zpow53, ← zpow_add₀ (by norm_num : (2 : ℚ) ≠ 0)]
        congr 1
        ring
      calc roundPos q1
          = (rhe (q1 * (2 : ℚ) ^ (52 - ilog2q q1)) : ℚ) * (2 : ℚ) ^ (ilog2q q1 - 52) := rfl
        _ ≤ ((9007199254740992 : ℤ) : ℚ) * (2 : ℚ) ^ (ilog2q q1 - 52) := by
            apply mul_le_mul_of_nonneg_right _ (two_zpow_pos _).le
            exact_mod_cast hr
        _ = (2 : ℚ) ^ (ilog2q q1 + 1) := hsum
    have hlo : (2 : ℚ) ^ ilog2q q2 ≤ roundPos q2 := by
      have hs1 := (roundPos_scaled q2 h2).1
      rw [zpow52] at hs1
      have hr : (4503599627370496 : ℤ) ≤ rhe (q2 * (2 : ℚ) ^ (52 - ilog2q q2)) := by
        have hmono := rhe_mono hs1
        rwa [rhe_intCast] at hmono
      have hsum : ((4503599627370496 : ℤ) : ℚ) * (2 : ℚ) ^ (ilog2q q2 - 52) =
          (2 : ℚ) ^ ilog2q q2 := by
        rw [← zpow52, ← zpow_add₀ (by norm_num : (2 : ℚ) ≠ 0)]
        congr 1
        ring
      calc (2 : ℚ) ^ ilog2q q2
          = ((4503599627370496 : ℤ) : ℚ) * (2 : ℚ) ^ (ilog2q q2 - 52) := hsum.symm
        _ ≤ (rhe (q2 * (2 : ℚ) ^ (52 - ilog2q q2)) : ℚ) * (2 : ℚ) ^ (ilog2q q2 - 52) := by
            apply mul_le_mul_of_nonneg_right _ (two_zpow_pos _).le
            exact_mod_cast hr
        _ = roundPos q2 := rfl
    have hmid : (2 : ℚ) ^ (ilog2q q1 + 1) ≤ (2 : ℚ) ^ ilog2q q2 := by
      apply zpow_le_zpow_right₀ (by norm_num : (1 : ℚ) ≤ 2)
      omega
    linarith

theorem roundD_zero : roundD 0 = 0 := by norm_num [roundD]

theorem roundD_of_pos (q : ℚ) (h : 0 < q) : roundD q = roundPos q := by
  rw [roundD, if_pos h]

theorem roundD_nonneg (q : ℚ) (h : 0 ≤ q) : 0 ≤ roundD q := by
  rcases eq_or_lt_of_le h with heq | hpos
  · rw [← heq, roundD_zero]
  · rw [roundD_of_pos q hpos]
    exact (roundPos_pos q hpos).le

theorem roundD_pos (q : ℚ) (h : 0 < q) : 0 < roundD q := by
  rw [roundD_of_pos q h]
  exact roundPos_pos q h

theorem roundD_le (q : ℚ) (h : 0 ≤ q) : roundD q ≤ q * (1 + uEps) := by
  rcases eq_or_lt_of_le h with heq | hpos
  · rw [← heq, roundD_zero]
    norm_num
  · rw [roundD_of_pos q hpos]
    exact roundPos_le q hpos

theorem roundD_ge (q : ℚ) (h : 0 ≤ q) : q * (1 - uEps) ≤ roundD q := by
  rcases eq_or_lt_of_le h with heq | hpos
  · rw [← heq, roundD_zero]
    norm_num
  · rw [roundD_of_pos q hpos]
    exact roundPos_ge q hpos

theorem roundD_mono (q1 q2 : ℚ) (h0 : 0 ≤ q1) (h : q1 ≤ q2) : roundD q1 ≤ roundD q2 := by
  rcases eq_or_lt_of_le h0 with heq | hpos
  · rw [← heq, roundD_zero]
    exact roundD_nonneg q2 (by linarith)
  · rw [roundD_of_pos q1 hpos, roundD_of_pos q2 (lt_of_lt_of_le hpos h)]
    exact roundPos_mono q1 q2 hpos h

theorem roundD_int_exact (n : ℤ) (h0 : 0 ≤ n) (h53 : n < 9007199254740992) :
    roundD (n : ℚ) = (n : ℚ) := by
  rcases eq_or_lt_of_le h0 with heq | hpos
  · rw [← heq]
    norm_num [roundD_zero]
  · have hq : (0 : ℚ) < (n : ℚ) := by exact_mod_cast hpos
    rw [roundD_of_pos _ hq]
    obtain ⟨hlo, hhi⟩ := ilog2q_spec (n : ℚ) hq
    set e := ilog2q (n : ℚ) with hedef
    have he0 : 0 ≤ e := by
      by_contra hcon
      push_neg at hcon
      have hle : (2 : ℚ) ^ (e + 1) ≤ (2 : ℚ) ^ (0 : ℤ) := by
        apply zpow_le_zpow_right₀ (by norm_num : (1 : ℚ) ≤ 2)
        omega
      rw [zpow_zero] at hle
      have : (n : ℚ) < 1 := lt_of_lt_of_le hhi hle
      have : n < 1 := by exact_mod_cast this
      omega
    have he52 : e ≤ 52 := by
      by_contra hcon
      push_neg at hcon
      have hle : (2 : ℚ) ^ (53 : ℤ) ≤ (2 : ℚ) ^ e := by
        apply zpow_le_zpow_right₀ (by norm_num : (1 : ℚ) ≤ 2)
        omega
      rw [zpow53] at hle
      have : ((9007199254740992 : ℤ) : ℚ) ≤ (n : ℚ) := le_trans hle hlo
      have : (9007199254740992 : ℤ) ≤ n := by exact_mod_cast this
      omega
    have hk : ((52 - e).toNat : ℤ) = 52 - e := Int.toNat_of_nonneg (by omega)
    have hs : (n : ℚ) * (2 : ℚ) ^ (52 - e) = ((n * 2 ^ (52 - e).toNat : ℤ) : ℚ) := by
      push_cast
      rw [← zpow_natCast (2 : ℚ) (52 - e).toNat, hk]
    have hr : rhe ((n : ℚ) * (2 : ℚ) ^ (52 - e)) = n * 2 ^ (52 - e).toNat := by
      rw [hs, rhe_intCast]
    show (rhe ((n : ℚ) * (2 : ℚ) ^ (52 - e)) : ℚ) * (2 : ℚ) ^ (e - 52) = (n : ℚ)
    rw [hr]
    push_cast
    rw [← zpow_natCast (2 : ℚ) (52 - e).toNat, hk, mul_assoc,
      ← zpow_add₀ (by norm_num : (2 : ℚ) ≠ 0)]
    have hz : 52 - e + (e - 52) = 0 := by ring
    rw [hz, zpow_zero, mul_one]

theorem fofInt_exact (n : ℤ) (h0 : 0 ≤ n) (h53 : n < 9007199254740992) :
    fofInt n = (n : ℚ) := roundD_int_exact n h0 h53

theorem ftrunc_of_nonneg (q : ℚ) (h : 0 ≤ q) : ftrunc q = ⌊q⌋ := by
  rw [ftrunc, if_neg (not_lt.mpr h)]

theorem intervalMinutes_eq (d : ℤ) (hd : 0 ≤ d) :
    intervalMinutes d =
      roundD (fofInt (d / 60) + roundD (((d % 60 : ℤ) : ℚ) / 60)) := by
  have h9 : (0 : ℤ) ≤ d * 1000000000 := by positivity
  have ht : (d * 1000000000).tdiv 60000000000 = d / 60 := by
    rw [Int.tdiv_eq_ediv h9 (by norm_num)]
    omega
  have hm : (d * 1000000000).tmod 60000000000 = d % 60 * 1000000000 := by
    rw [Int.tmod_eq_emod h9 (by norm_num)]
    omega
  have hr0 : (0 : ℤ) ≤ d % 60 := Int.emod_nonneg d (by norm_num)
  have hr60 : d % 60 < 60 := Int.emod_lt_of_pos d (by norm_num)
  have hrx : fofInt (d % 60 * 1000000000) = ((d % 60 * 1000000000 : ℤ) : ℚ) :=
    fofInt_exact _ (by positivity) (by omega)
  have h60 : fofInt 60000000000 = ((60000000000 : ℤ) : ℚ) :=
    fofInt_exact _ (by norm_num) (by norm_num)
  have hq : ((d % 60 * 1000000000 : ℤ) : ℚ) / ((60000000000 : ℤ) : ℚ) =
      ((d % 60 : ℤ) : ℚ) / 60 := by
    push_cast
    ring
  rw [intervalMinutes, durationMinutes, ht, hm]
  rw [fdiv, hrx, h60, hq, fadd]

theorem intervalMinutes_nonneg (d : ℤ) (hd : 0 ≤ d) : 0 ≤ intervalMinutes d := by
  rw [intervalMinutes_eq d hd]
  apply roundD_nonneg
  have h1 : (0 : ℚ) ≤ fofInt (d / 60) := by
    apply roundD_nonneg
    have : (0 : ℤ) ≤ d / 60 := Int.ediv_nonneg hd (by norm_num)
    exact_mod_cast this
  have h2 : (0 : ℚ) ≤ roundD (((d % 60 : ℤ) : ℚ) / 60) := by
    apply roundD_nonneg
    have : (0 : ℤ) ≤ d % 60 := Int.emod_nonneg d (by norm_num)
    positivity
  linarith

theorem roundD_120 : roundD (120 : ℚ) = 120 := by
  have h := roundD_int_exact 120 (by norm_num) (by norm_num)
  push_cast at h
  exact h

theorem roundD_121 : roundD (121 : ℚ) = 121 := by
  have h := roundD_int_exact 121 (by norm_num) (by norm_num)
  push_cast at h
  exact h

theorem frac_lt_one (d : ℤ) : roundD (((d % 60 : ℤ) : ℚ) / 60) < 1 := by
  set x : ℚ := ((d % 60 : ℤ) : ℚ) / 60 with hxdef
  have hr0 : (0 : ℤ) ≤ d % 60 := Int.emod_nonneg d (by norm_num)
  have hr60 : d % 60 < 60 := Int.emod_lt_of_pos d (by norm_num)
  have hx0 : (0:ℚ) ≤ x := by
    rw [hxdef]
    have : (0:ℚ) ≤ ((d % 60 : ℤ) : ℚ) := by exact_mod_cast hr0
    linarith
  have hx59 : x ≤ 59 / 60 := by
    rw [hxdef]
    have : ((d % 60 : ℤ) : ℚ) ≤ 59 := by exact_mod_cast (by omega : d % 60 ≤ (59:ℤ))
    linarith
  have h1 := roundD_le x hx0
  have h2 : x * (1 + uEps) ≤ (59 / 60) * (1 + uEps) :=
    mul_le_mul_of_nonneg_right hx59 (by linarith [uEps_pos])
  have h3 : (59 / 60 : ℚ) * (1 + uEps) < 1 := by norm_num [uEps]
  linarith

theorem frac_nonneg (d : ℤ) : 0 ≤ roundD (((d % 60 : ℤ) : ℚ) / 60) := by
  apply roundD_nonneg
  have hr0 : (0 : ℤ) ≤ d % 60 := Int.emod_nonneg d (by norm_num)
  have : (0:ℚ) ≤ ((d % 60 : ℤ) : ℚ) := by exact_mod_cast hr0
  linarith

theorem interval_le_120 (d : ℤ) (h0 : 0 ≤ d) (h72 : d ≤ 7200) :
    intervalMinutes d ≤ 120 := by
  rw [intervalMinutes_eq d h0]
  have hq0 : (0:ℤ) ≤ d / 60 := Int.ediv_nonneg h0 (by norm_num)
  have hfq : fofInt (d / 60) = ((d / 60 : ℤ) : ℚ) := fofInt_exact _ hq0 (by omega)
  rw [hfq]
  have hQ0 : (0:ℚ) ≤ ((d / 60 : ℤ) : ℚ) := by exact_mod_cast hq0
  have hf0 := frac_nonneg d
  have hf1 := frac_lt_one d
  rcases (by omega : d / 60 ≤ 119 ∨ (d / 60 = 120 ∧ d % 60 = 0)) with hc | ⟨hc, hr⟩
  · have hQ119 : ((d / 60 : ℤ) : ℚ) ≤ 119 := by exact_mod_cast hc
    calc roundD (((d / 60 : ℤ) : ℚ) + roundD (((d % 60 : ℤ) : ℚ) / 60))
        ≤ roundD 120 := roundD_mono _ _ (by linarith) (by linarith)
      _ = 120 := roundD_120
  · rw [hc, hr]
    norm_num [roundD_zero, roundD_120]

theorem interval_gt_120 (d : ℤ) (h72 : 7200 < d) : 120 < intervalMinutes d := by
  have h0 : (0:ℤ) ≤ d := by omega
  rw [intervalMinutes_eq d h0]
  have hq0 : (0:ℤ) ≤ d / 60 := Int.ediv_nonneg h0 (by norm_num)
  have hfacts : 0 ≤ d % 60 ∧ d % 60 < 60 ∧ d = 60 * (d / 60) + d % 60 := by omega
  have hf0 := frac_nonneg d
  rcases (by omega : 121 ≤ d / 60 ∨ (d / 60 = 120 ∧ 1 ≤ d % 60)) with hc | ⟨hc, hr⟩
  · have hQ121 : (121:ℚ) ≤ ((d / 60 : ℤ) : ℚ) := by exact_mod_cast hc
    have hfQ : (121:ℚ) ≤ fofInt (d / 60) := by
      have := roundD_mono (121 : ℚ) ((d / 60 : ℤ) : ℚ) (by norm_num) hQ121
      rwa [roundD_121] at this
    have hs : (121:ℚ) ≤ fofInt (d / 60) + roundD (((d % 60 : ℤ) : ℚ) / 60) := by linarith
    have hround : roundD (121:ℚ) ≤ roundD (fofInt (d / 60) + roundD (((d % 60 : ℤ) : ℚ) / 60)) :=
      roundD_mono _ _ (by norm_num) hs
    rw [roundD_121] at hround
    linarith
  · rw [hc]
    have hfq : fofInt (120 : ℤ) = ((120 : ℤ) : ℚ) := fofInt_exact _ (by norm_num) (by norm_num)
    rw [hfq]
    set x : ℚ := ((d % 60 : ℤ) : ℚ) / 60 with hxdef
    have hx60 : (1 / 60 : ℚ) ≤ x := by
      rw [hxdef]
      have : (1:ℚ) ≤ ((d % 60 : ℤ) : ℚ) := by exact_mod_cast hr
      linarith
    have hx0 : (0:ℚ) ≤ x := by linarith
    have hflb := roundD_ge x hx0
    have hstep : (1 / 60 : ℚ) * (1 - uEps) ≤ x * (1 - uEps) :=
      mul_le_mul_of_nonneg_right hx60 (by linarith [uEps_lt_one])
    have hfl : (1 / 60 : ℚ) * (1 - uEps) ≤ roundD x := by linarith
    have hs0 : (0:ℚ) ≤ ((120 : ℤ) : ℚ) + roundD x := by
      have := roundD_nonneg x hx0
      push_cast
      linarith
    have hslb := roundD_ge _ hs0
    have hkey : (120:ℚ) < (((120 : ℤ) : ℚ) + roundD x) * (1 - uEps) := by
      push_cast
      have hc120 : (120 + (1 / 60) * (1 - uEps) : ℚ) * (1 - uEps) > 120 := by
        norm_num [uEps]
      have hmono : (120 + (1 / 60) * (1 - uEps) : ℚ) * (1 - uEps) ≤
          (120 + roundD x) * (1 - uEps) :=
        mul_le_mul_of_nonneg_right (by linarith) (by linarith [uEps_lt_one])
      linarith
    linarith

theorem intervalKept_iff (d : ℤ) (hd : 0 ≤ d) : intervalKept d = true ↔ d ≤ 7200 := by
  simp only [intervalKept, decide_eq_true_eq]
  constructor
  · intro h
    by_contra hcon
    push_neg at hcon
    exact absurd h (not_le.mpr (interval_gt_120 d hcon))
  · intro h
    exact interval_le_120 d hd h

theorem y100_near (d : ℤ) (h0 : 0 ≤ d) (h72 : d ≤ 7200) :
    (5 * d).tdiv 3 - 1 ≤ ftrunc (fmul (intervalMinutes d) 100) ∧
      ftrunc (fmul (intervalMinutes d) 100) ≤ (5 * d).tdiv 3 := by
  have hq0 : (0:ℤ) ≤ d / 60 := Int.ediv_nonneg h0 (by norm_num)
  have hq120 : d / 60 ≤ 120 := by omega
  have hr0 : (0 : ℤ) ≤ d % 60 := Int.emod_nonneg d (by norm_num)
  have hr60 : d % 60 < 60 := Int.emod_lt_of_pos d (by norm_num)
  have hdecomp : d = 60 * (d / 60) + d % 60 := by omega
  have hfq : fofInt (d / 60) = ((d / 60 : ℤ) : ℚ) := fofInt_exact _ hq0 (by omega)
  simp only [fmul]
  rw [intervalMinutes_eq d h0, hfq]
  set x : ℚ := ((d % 60 : ℤ) : ℚ) / 60 with hxdef
  set f : ℚ := roundD x with hfdef
  set s : ℚ := ((d / 60 : ℤ) : ℚ) + f with hsdef
  set I : ℚ := roundD s with hIdef
  have hu : (0:ℚ) < uEps := uEps_pos
  have hu1 : uEps < 1 := uEps_lt_one
  have hx0 : (0:ℚ) ≤ x := by
    rw [hxdef]
    have : (0:ℚ) ≤ ((d % 60 : ℤ) : ℚ) := by exact_mod_cast hr0
    linarith
  have hx1 : x ≤ 1 := by
    rw [hxdef]
    have : ((d % 60 : ℤ) : ℚ) ≤ 59 := by exact_mod_cast (by omega : d % 60 ≤ (59:ℤ))
    linarith
  have hf0 : 0 ≤ f := roundD_nonneg x hx0
  have hflb : x * (1 - uEps) ≤ f := roundD_ge x hx0
  have hfub : f ≤ x * (1 + uEps) := roundD_le x hx0
  have hxu : x * uEps ≤ 1 * uEps := mul_le_mul_of_nonneg_right hx1 hu.le
  have hxu0 : 0 ≤ x * uEps := by positivity
  have hexpf1 : x * (1 - uEps) = x - x * uEps := by ring
  have hexpf2 : x * (1 + uEps) = x + x * uEps := by ring
  have hfd1 : x - uEps ≤ f := by linarith
  have hfd2 : f ≤ x + uEps := by linarith
  have hQ0 : (0:ℚ) ≤ ((d / 60 : ℤ) : ℚ) := by exact_mod_cast hq0
  have hs0 : 0 ≤ s := by rw [hsdef]; linarith
  have hslb : s * (1 - uEps) ≤ I := roundD_ge s hs0
  have hsub : I ≤ s * (1 + uEps) := roundD_le s hs0
  set E : ℚ := (d : ℚ) / 60 with hEdef
  have hE : E = ((d / 60 : ℤ) : ℚ) + x := by
    rw [hEdef, hxdef]
    have hcast : (d : ℚ) = 60 * ((d / 60 : ℤ) : ℚ) + ((d % 60 : ℤ) : ℚ) := by
      exact_mod_cast congrArg (fun z : ℤ => (z : ℚ)) hdecomp
    rw [hcast]
    ring
  have hE0 : 0 ≤ E := by rw [hE]; linarith
  have hE120 : E ≤ 120 := by
    rw [hEdef]
    have : (d : ℚ) ≤ 7200 := by exact_mod_cast h72
    linarith
  have hsE1 : E - uEps ≤ s := by rw [hE, hsdef]; linarith
  have hsE2 : s ≤ E + uEps := by rw [hE, hsdef]; linarith
  have hstep1 : (E - uEps) * (1 - uEps) ≤ s * (1 - uEps) :=
    mul_le_mul_of_nonneg_right hsE1 (by linarith)
  have hexp1 : (E - uEps) * (1 - uEps) = E - E * uEps - uEps + uEps * uEps := by ring
  have hEu : E * uEps ≤ 120 * uEps := mul_le_mul_of_nonneg_right hE120 hu.le
  have huu : (0:ℚ) ≤ uEps * uEps := by positivity
  have hIlb : E - 121 * uEps ≤ I := by linarith
  have hstep2 : s * (1 + uEps) ≤ (E + uEps) * (1 + uEps) :=
    mul_le_mul_of_nonneg_right hsE2 (by linarith)
  have hexp2 : (E + uEps) * (1 + uEps) = E + E * uEps + uEps + uEps * uEps := by ring
  have huu1 : uEps * uEps ≤ uEps := by nlinarith
  have hIub : I ≤ E + 122 * uEps := by linarith
  have hI0 : 0 ≤ I := roundD_nonneg s hs0
  have h122 : (122:ℚ) * uEps ≤ 1 := by norm_num [uEps]
  have hI121 : I ≤ 121 := by linarith
  have hP0 : (0:ℚ) ≤ I * 100 := by linarith
  have hPlb : (I * 100) * (1 - uEps) ≤ roundD (I * 100) := roundD_ge _ hP0
  have hPub : roundD (I * 100) ≤ (I * 100) * (1 + uEps) := roundD_le _ hP0
  have hI100u : (I * 100) * uEps ≤ 12100 * uEps :=
    mul_le_mul_of_nonneg_right (by linarith) hu.le
  have hI100u0 : (0:ℚ) ≤ (I * 100) * uEps := by positivity
  have hexp3 : (I * 100) * (1 + uEps) = I * 100 + (I * 100) * uEps := by ring
  have hexp4 : (I * 100) * (1 - uEps) = I * 100 - (I * 100) * uEps := by ring
  have hPub2 : roundD (I * 100) ≤ 100 * E + 24300 * uEps := by linarith
  have hPlb2 : 100 * E - 24300 * uEps ≤ roundD (I * 100) := by linarith
  have htdiv : (5 * d).tdiv 3 = (5 * d) / 3 := Int.tdiv_eq_ediv (by omega) (by norm_num)
  rw [htdiv]
  have ht1 : 3 * ((5 * d) / 3) ≤ 5 * d := by omega
  have ht2 : 5 * d ≤ 3 * ((5 * d) / 3) + 2 := by omega
  have htq1 : (((5 * d) / 3 : ℤ) : ℚ) ≤ 100 * E := by
    rw [hEdef]
    have hc : (3:ℚ) * (((5 * d) / 3 : ℤ) : ℚ) ≤ 5 * (d:ℚ) := by exact_mod_cast ht1
    linarith
  have htq2 : 100 * E ≤ (((5 * d) / 3 : ℤ) : ℚ) + 2 / 3 := by
    rw [hEdef]
    have hc : 5 * (d:ℚ) ≤ 3 * (((5 * d) / 3 : ℤ) : ℚ) + 2 := by exact_mod_cast ht2
    linarith
  have hsmall : (24300:ℚ) * uEps < 1 / 3 := by norm_num [uEps]
  have hPr0 : (0:ℚ) ≤ roundD (I * 100) := roundD_nonneg _ hP0
  rw [ftrunc_of_nonneg _ hPr0]
  constructor
  · rw [Int.le_floor]
    push_cast
    linarith
  · have hlt : ⌊roundD (I * 100)⌋ < (5 * d) / 3 + 1 := by
      rw [Int.floor_lt]
      push_cast
      linarith
    omega

theorem strideIdx_nonneg (len lim i : Nat) : 0 ≤ strideIdx len lim i := by
  simp only [strideIdx, fmul, fdiv]
  have h1 : (0:ℚ) ≤ fofInt (i : Int) := by
    apply roundD_nonneg
    exact_mod_cast Int.ofNat_nonneg i
  have h2 : (0:ℚ) ≤ fofInt (len : Int) := by
    apply roundD_nonneg
    exact_mod_cast Int.ofNat_nonneg len
  have h3 : (0:ℚ) ≤ fofInt (lim : Int) := by
    apply roundD_nonneg
    exact_mod_cast Int.ofNat_nonneg lim
  have h4 : (0:ℚ) ≤ roundD (fofInt (len : Int) / fofInt (lim : Int)) :=
    roundD_nonneg _ (div_nonneg h2 h3)
  have h5 : (0:ℚ) ≤ roundD (fofInt (i : Int) * roundD (fofInt (len : Int) / fofInt (lim : Int))) :=
    roundD_nonneg _ (mul_nonneg h1 h4)
  rw [ftrunc_of_nonneg _ h5]
  exact Int.floor_nonneg.mpr h5

theorem strideIdx_mono (len lim : Nat) (i j : Nat) (hij : i ≤ j) :
    strideIdx len lim i ≤ strideIdx len lim j := by
  simp only [strideIdx, fmul, fdiv]
  have h2 : (0:ℚ) ≤ fofInt (len : Int) := by
    apply roundD_nonneg
    exact_mod_cast Int.ofNat_nonneg len
  have h3 : (0:ℚ) ≤ fofInt (lim : Int) := by
    apply roundD_nonneg
    exact_mod_cast Int.ofNat_nonneg lim
  have hstep : (0:ℚ) ≤ roundD (fofInt (len : Int) / fofInt (lim : Int)) :=
    roundD_nonneg _ (div_nonneg h2 h3)
  have hi0 : (0:ℚ) ≤ ((i : ℤ) : ℚ) := by exact_mod_cast Int.ofNat_nonneg i
  have hijq : ((i : ℤ) : ℚ) ≤ ((j : ℤ) : ℚ) := by exact_mod_cast hij
  have hfij : fofInt (i : Int) ≤ fofInt (j : Int) := roundD_mono _ _ hi0 hijq
  have hfi0 : (0:ℚ) ≤ fofInt (i : Int) := roundD_nonneg _ hi0
  have hprod : fofInt (i : Int) * roundD (fofInt (len : Int) / fofInt (lim : Int)) ≤
      fofInt (j : Int) * roundD (fofInt (len : Int) / fofInt (lim : Int)) :=
    mul_le_mul_of_nonneg_right hfij hstep
  have hprod0 : (0:ℚ) ≤ fofInt (i : Int) * roundD (fofInt (len : Int) / fofInt (lim : Int)) :=
    mul_nonneg hfi0 hstep
  have hr := roundD_mono _ _ hprod0 hprod
  have hr1 : (0:ℚ) ≤ roundD (fofInt (i : Int) * roundD (fofInt (len : Int) / fofInt (lim : Int))) :=
    roundD_nonneg _ hprod0
  have hr2 : (0:ℚ) ≤ roundD (fofInt (j : Int) * roundD (fofInt (len : Int) / fofInt (lim : Int))) :=
    roundD_nonneg _ (mul_nonneg (roundD_nonneg _ (by exact_mod_cast Int.ofNat_nonneg j)) hstep)
  rw [ftrunc_of_nonneg _ hr1, ftrunc_of_nonneg _ hr2]
  exact Int.floor_le_floor hr

theorem strideIdx_lt (len lim i : Nat) (hl1 : 1 ≤ lim) (hl2 : lim ≤ 10000)
    (hlen : lim < len) (hlen53 : (len : ℤ) < 9007199254740992) (hi : i < lim) :
    strideIdx len lim i < (len : ℤ) := by
  have hfi : fofInt (i : Int) = ((i : ℤ) : ℚ) :=
    fofInt_exact _ (Int.ofNat_nonneg i) (by omega)
  have hflen : fofInt (len : Int) = ((len : ℤ) : ℚ) :=
    fofInt_exact _ (Int.ofNat_nonneg len) hlen53
  have hflim : fofInt (lim : Int) = ((lim : ℤ) : ℚ) :=
    fofInt_exact _ (Int.ofNat_nonneg lim) (by omega)
  simp only [strideIdx, fmul, fdiv, hfi, hflen, hflim]
  set A : ℚ := ((len : ℤ) : ℚ) with hAdef
  set M : ℚ := ((lim : ℤ) : ℚ) with hMdef
  have hA0 : (0:ℚ) < A := by rw [hAdef]; exact_mod_cast (by omega : (0:ℤ) < (len : ℤ))
  have hM0 : (0:ℚ) < M := by rw [hMdef]; exact_mod_cast (by omega : (0:ℤ) < (lim : ℤ))
  have hM1 : (1:ℚ) ≤ M := by rw [hMdef]; exact_mod_cast (by omega : (1:ℤ) ≤ (lim : ℤ))
  have hM10000 : M ≤ 10000 := by rw [hMdef]; exact_mod_cast (by omega : (lim : ℤ) ≤ 10000)
  have hiM : ((i : ℤ) : ℚ) ≤ M - 1 := by
    rw [hMdef]
    have : ((i : ℤ) : ℚ) + 1 ≤ ((lim : ℤ) : ℚ) := by exact_mod_cast (by omega : (i:ℤ) + 1 ≤ (lim:ℤ))
    linarith
  have hi0 : (0:ℚ) ≤ ((i : ℤ) : ℚ) := by exact_mod_cast Int.ofNat_nonneg i
  have hAM0 : (0:ℚ) < A / M := div_pos hA0 hM0
  have hu : (0:ℚ) < uEps := uEps_pos
  have hu1 : uEps < 1 := uEps_lt_one
  have hstep_ub : roundD (A / M) ≤ (A / M) * (1 + uEps) := roundD_le _ hAM0.le
  have hstep_0 : (0:ℚ) ≤ roundD (A / M) := roundD_nonneg _ hAM0.le
  have hprod_ub : ((i : ℤ) : ℚ) * roundD (A / M) ≤ (M - 1) * ((A / M) * (1 + uEps)) := by
    apply mul_le_mul hiM hstep_ub hstep_0 (by linarith)
  have hprod_0 : (0:ℚ) ≤ ((i : ℤ) : ℚ) * roundD (A / M) := mul_nonneg hi0 hstep_0
  have hP_ub : roundD (((i : ℤ) : ℚ) * roundD (A / M)) ≤
      ((M - 1) * ((A / M) * (1 + uEps))) * (1 + uEps) := by
    have h1 := roundD_le _ hprod_0
    have h2 : (((i : ℤ) : ℚ) * roundD (A / M)) * (1 + uEps) ≤
        ((M - 1) * ((A / M) * (1 + uEps))) * (1 + uEps) :=
      mul_le_mul_of_nonneg_right hprod_ub (by linarith)
    linarith
  have hkey : ((M - 1) * ((A / M) * (1 + uEps))) * (1 + uEps) < A := by
    have hfact : ((M - 1) * ((A / M) * (1 + uEps))) * (1 + uEps) =
        ((M - 1) * (1 + uEps) * (1 + uEps)) * (A / M) := by ring
    have hcoef : (M - 1) * (1 + uEps) * (1 + uEps) < M := by
      have hexpand : (M - 1) * (1 + uEps) * (1 + uEps) =
          (M - 1) + (M - 1) * (2 * uEps + uEps * uEps) := by ring
      have hM9999 : M - 1 ≤ 9999 := by linarith
      have hM1' : (0:ℚ) ≤ M - 1 := by linarith
      have hpos : (0:ℚ) ≤ 2 * uEps + uEps * uEps := by positivity
      have hmul : (M - 1) * (2 * uEps + uEps * uEps) ≤ 9999 * (2 * uEps + uEps * uEps) :=
        mul_le_mul_of_nonneg_right hM9999 hpos
      have hnum : (9999:ℚ) * (2 * uEps + uEps * uEps) < 1 := by norm_num [uEps]
      linarith
    calc ((M - 1) * ((A / M) * (1 + uEps))) * (1 + uEps)
        = ((M - 1) * (1 + uEps) * (1 + uEps)) * (A / M) := hfact
      _ < M * (A / M) := mul_lt_mul_of_pos_right hcoef hAM0
      _ = A := by field_simp
  have hfinal : roundD (((i : ℤ) : ℚ) * roundD (A / M)) < A := by linarith
  have hr0 : (0:ℚ) ≤ roundD (((i : ℤ) : ℚ) * roundD (A / M)) := roundD_nonneg _ hprod_0
  rw [ftrunc_of_nonneg _ hr0]
  rw [Int.floor_lt]
  exact hfinal

theorem roundD_one : roundD (1 : ℚ) = 1 := by
  have h := roundD_int_exact 1 (by norm_num) (by norm_num)
  push_cast at h
  exact h

theorem roundD_100 : roundD (100 : ℚ) = 100 := by
  have h := roundD_int_exact 100 (by norm_num) (by norm_num)
  push_cast at h
  exact h

theorem intervalMinutes_zero : intervalMinutes 0 = 0 := by
  simp only [intervalMinutes, durationMinutes, fadd, fdiv, fofInt]
  norm_num [Int.zero_tdiv, Int.zero_tmod, roundD_zero]

theorem intervalMinutes_sixty : intervalMinutes 60 = 1 := by
  have h1 : (60 * 1000000000 : ℤ) = 60000000000 := by norm_num
  have h2 : (60000000000 : ℤ).tdiv 60000000000 = 1 := by decide
  have h3 : (60000000000 : ℤ).tmod 60000000000 = 0 := by decide
  simp only [intervalMinutes, durationMinutes, h1, h2, h3, fadd, fdiv, fofInt]
  norm_num [roundD_zero, roundD_one]

theorem kept_sixty : intervalKept 60 = true := by
  simp only [intervalKept, intervalMinutes_sixty, decide_eq_true_eq]
  norm_num

theorem kept_zero : intervalKept 0 = true := by
  simp only [intervalKept, intervalMinutes_zero, decide_eq_true_eq]
  norm_num

theorem y_sixty : ftrunc (fmul (intervalMinutes 60) 100) = 100 := by
  rw [intervalMinutes_sixty]
  simp only [fmul, one_mul, roundD_100]
  rw [ftrunc_of_nonneg _ (by norm_num : (0:ℚ) ≤ 100)]
  norm_num

theorem y_zero : ftrunc (fmul (intervalMinutes 0) 100) = 0 := by
  rw [intervalMinutes_zero]
  simp only [fmul, zero_mul, roundD_zero]
  rw [ftrunc_of_nonneg _ (by norm_num : (0:ℚ) ≤ 0)]
  norm_num

theorem y100_nonneg (d : ℤ) (h0 : 0 ≤ d) : 0 ≤ ftrunc (fmul (intervalMinutes d) 100) := by
  have hI := intervalMinutes_nonneg d h0
  have hP0 : (0:ℚ) ≤ intervalMinutes d * 100 := by linarith
  have hPr := roundD_nonneg _ hP0
  simp only [fmul]
  rw [ftrunc_of_nonneg _ hPr]
  exact Int.floor_nonneg.mpr hPr

theorem filterMap_some {α β : Type} (g : α → β) (l : List α) :
    l.filterMap (fun a => some (g a)) = l.map g := by
  induction l with
  | nil => rfl
  | cons a t ih => simp [List.filterMap_cons, ih]

/-- The interval loop emits exactly one point per consecutive pair whose
interval passes the 120-minute filter. -/
theorem intervalPoints_length_eq : ∀ l : List (Int × GoStr),
    (intervalPoints l).length =
      ((l.zip l.tail).filter (fun ab => intervalKept (ab.2.1 - ab.1.1))).length
  | [] => by simp [intervalPoints]
  | [a] => by simp [intervalPoints]
  | a :: b :: rest => by
    have ih := intervalPoints_length_eq (b :: rest)
    simp only [List.tail_cons] at ih
    by_cases hk : intervalKept (b.1 - a.1) <;>
      simp [intervalPoints, List.zip_cons_cons, List.filter_cons, hk, ih]

/-- On a timestamp-ascending record list every emitted centi-minute value
lies in `[0, 12000]` (i.e. `y ∈ [0, 120]` minutes). -/
theorem intervalPoints_y_bounds : ∀ l : List (Int × GoStr),
    List.Chain' (fun a b : Int × GoStr => a.1 ≤ b.1) l →
    ∀ p ∈ intervalPoints l, 0 ≤ p.y100 ∧ p.y100 ≤ 12000
  | [] => by simp [intervalPoints]
  | [a] => by simp [intervalPoints]
  | a :: b :: rest => by
    intro hch p hp
    have hab : a.1 ≤ b.1 := (List.chain'_cons.mp hch).1
    have htail : List.Chain' (fun a b : Int × GoStr => a.1 ≤ b.1) (b :: rest) :=
      (List.chain'_cons.mp hch).2
    simp only [intervalPoints] at hp
    rcases List.mem_append.mp hp with hp1 | hp2
    · by_cases hk : intervalKept (b.1 - a.1)
      · rw [if_pos hk] at hp1
        rcases List.mem_singleton.mp hp1 with rfl
        have hd0 : (0 : ℤ) ≤ b.1 - a.1 := by omega
        have hd1 : b.1 - a.1 ≤ 7200 := (intervalKept_iff (b.1 - a.1) hd0).mp hk
        constructor
        · exact y100_nonneg (b.1 - a.1) hd0
        · have hub := (y100_near (b.1 - a.1) hd0 hd1).2
          have htd : (5 * (b.1 - a.1)).tdiv 3 ≤ 12000 := by
            rw [Int.tdiv_eq_ediv (by omega) (by omega)]
            omega
          dsimp only
          omega
      · rw [if_neg hk] at hp1
        simp at hp1
    · exact intervalPoints_y_bounds (b :: rest) htail p hp2

/-- The emitted x values form a sublist of the timestamps of the tail of
the record list. -/
theorem intervalPoints_x_sublist : ∀ l : List (Int × GoStr),
    ((intervalPoints l).map (fun p => p.x)).Sublist
      (l.tail.map (fun ab : Int × GoStr => ab.1))
  | [] => by simp [intervalPoints]
  | [a] => by simp [intervalPoints]
  | a :: b :: rest => by
    have ih := intervalPoints_x_sublist (b :: rest)
    simp only [intervalPoints, List.tail_cons, List.map_append, List.map_cons,
      List.map_nil] at ih ⊢
    by_cases hk : intervalKept (b.1 - a.1)
    · rw [if_pos hk]
      simp only [List.map_cons, List.map_nil, List.singleton_append]
      exact List.Sublist.cons₂ _ ih
    · rw [if_neg hk]
      simp only [List.map_nil, List.nil_append]
      exact ih.trans (List.sublist_cons_self _ _)

/-- The emitted x values are pairwise non-decreasing on a sorted input. -/
theorem intervalPoints_x_pairwise (l : List (Int × GoStr))
    (hch : List.Chain' (fun a b : Int × GoStr => a.1 ≤ b.1) l) :
    List.Pairwise (fun p q : IPoint => p.x ≤ q.x) (intervalPoints l) := by
  have h1 : List.Chain' (fun x y : Int => x ≤ y)
      (l.map (fun ab : Int × GoStr => ab.1)) :=
    (List.chain'_map _).mpr hch
  have h2 : List.Pairwise (fun x y : Int => x ≤ y)
      (l.map (fun ab : Int × GoStr => ab.1)) :=
    List.chain'_iff_pairwise.mp h1
  have h3 : List.Pairwise (fun x y : Int => x ≤ y)
      (l.tail.map (fun ab : Int × GoStr => ab.1)) := by
    rw [List.map_tail]
    exact h2.sublist (List.tail_sublist _)
  have h4 : List.Pairwise (fun x y : Int => x ≤ y)
      ((intervalPoints l).map (fun p => p.x)) :=
    h3.sublist (intervalPoints_x_sublist l)
  exact (List.pairwise_map.mp h4).imp (fun h => h)

/-- Indexing a pairwise-nondecreasing point list at nondecreasing indices
is monotone. -/
theorem getD_x_mono (ps : List IPoint)
    (hpw : List.Pairwise (fun p q : IPoint => p.x ≤ q.x) ps)
    (i j : Nat) (hij : i ≤ j) (hj : j < ps.length) (d : IPoint) :
    (ps.getD i d).x ≤ (ps.getD j d).x := by
  rcases Nat.eq_or_lt_of_le hij with rfl | hlt
  · exact le_refl _
  · rw [List.getD_eq_getElem ps d (by omega), List.getD_eq_getElem ps d hj]
    exact List.pairwise_iff_getElem.mp hpw i j (by omega) hj hlt

/-- C3 (amended): the timeline emits one point per consecutive pair with
binary64 interval ≤ 120 minutes, a filter that coincides with
`Δsec ≤ 7200` on the second-granular stored timestamps; every emitted
centi-minute value lies in `[0, 12000]` (the claimed `(0, 120]` fails:
coincident timestamps emit 0) and is within one (below) of the exact
`⌊Δsec·5/3⌋`; when more points survive than the normalized limit (itself
in `[1, 10000]`), exactly `limit` points are emitted, at the binary64
stride indices `int(float64(i)·(float64(len)/float64(limit)))` — which
can differ from the exact `⌊i·len/limit⌋` — in non-decreasing x order
(`len < 2^53` keeps the int-to-float conversions in range). -/
theorem GetIntervalTimeline_amended (records : List (Int × GoStr)) (limit : Int)
    (hsorted : List.Chain' (fun a b : Int × GoStr => a.1 ≤ b.1) records)
    (hbound : ((intervalPoints records).length : ℤ) < 9007199254740992) :
    (1 ≤ normalizeLimit limit ∧ normalizeLimit limit ≤ 10000) ∧
    (∀ d : ℤ, 0 ≤ d → (intervalKept d = true ↔ d ≤ 7200)) ∧
    (intervalPoints records).length =
      ((records.zip records.tail).filter
        (fun ab => intervalKept (ab.2.1 - ab.1.1))).length ∧
    (∀ p ∈ intervalPoints records, 0 ≤ p.y100 ∧ p.y100 ≤ 12000) ∧
    (∀ d : ℤ, 0 ≤ d → d ≤ 7200 →
      (5 * d).tdiv 3 - 1 ≤ ftrunc (fmul (intervalMinutes d) 100) ∧
      ftrunc (fmul (intervalMinutes d) 100) ≤ (5 * d).tdiv 3) ∧
    (normalizeLimit limit < (intervalPoints records).length →
      (getIntervalTimelinePoints records limit).length = normalizeLimit limit ∧
      (∀ i, i < normalizeLimit limit →
        (getIntervalTimelinePoints records limit).getD i ⟨0, 0, []⟩ =
          (intervalPoints records).getD
            (strideIdx (intervalPoints records).length (normalizeLimit limit) i).toNat
            ⟨0, 0, []⟩)) ∧
    ((intervalPoints records).length ≤ normalizeLimit limit →
      getIntervalTimelinePoints records limit = intervalPoints records) ∧
    List.Chain' (fun p q : IPoint => p.x ≤ q.x)
      (getIntervalTimelinePoints records limit) := by
  have hlim : 1 ≤ normalizeLimit limit ∧ normalizeLimit limit ≤ 10000 := by
    unfold normalizeLimit
    split_ifs <;> omega
  have hpw := intervalPoints_x_pairwise records hsorted
  have hsample_eq : normalizeLimit limit < (intervalPoints records).length →
      sampleEvenly (intervalPoints records) (normalizeLimit limit) =
        (List.range (normalizeLimit limit)).map
          (fun i => (intervalPoints records).getD
            (strideIdx (intervalPoints records).length (normalizeLimit limit) i).toNat
            ⟨0, 0, []⟩) := by
    intro hgt
    unfold sampleEvenly
    rw [if_pos hgt]
    have hcongr : ∀ i ∈ List.range (normalizeLimit limit),
        (if strideIdx (intervalPoints records).length (normalizeLimit limit) i <
            ((intervalPoints records).length : Int)
         then some ((intervalPoints records).getD
            (strideIdx (intervalPoints records).length (normalizeLimit limit) i).toNat
            ⟨0, 0, []⟩)
         else none) =
        some ((intervalPoints records).getD
            (strideIdx (intervalPoints records).length (normalizeLimit limit) i).toNat
            ⟨0, 0, []⟩) := by
      intro i hi
      rw [List.mem_range] at hi
      exact if_pos (strideIdx_lt _ _ _ hlim.1 hlim.2 hgt hbound hi)
    rw [List.filterMap_congr hcongr, filterMap_some]
  refine ⟨hlim, fun d hd => intervalKept_iff d hd, intervalPoints_length_eq records,
    intervalPoints_y_bounds records hsorted, fun d h1 h2 => y100_near d h1 h2,
    fun hgt => ⟨?_, ?_⟩, fun hle => ?_, ?_⟩
  · unfold getIntervalTimelinePoints
    rw [hsample_eq hgt]
    simp
  · intro i hi
    unfold getIntervalTimelinePoints
    rw [hsample_eq hgt]
    rw [List.getD_eq_getElem _ _ (by simpa using hi)]
    rw [List.getElem_map]
    rw [List.getElem_range]
  · unfold getIntervalTimelinePoints sampleEvenly
    rw [if_neg (by omega)]
  · unfold getIntervalTimelinePoints
    by_cases hgt : normalizeLimit limit < (intervalPoints records).length
    · rw [hsample_eq hgt]
      apply List.Pairwise.chain'
      apply List.pairwise_map.mpr
      have hbase := List.pairwise_lt_range (normalizeLimit limit)
      refine hbase.imp_of_mem ?_
      intro i j hi hj hij
      rw [List.mem_range] at hi hj
      have hmono := strideIdx_mono (intervalPoints records).length (normalizeLimit limit)
        i j (by omega)
      have hnni := strideIdx_nonneg (intervalPoints records).length (normalizeLimit limit) i
      have hnnj := strideIdx_nonneg (intervalPoints records).length (normalizeLimit limit) j
      have hltj := strideIdx_lt (intervalPoints records).length (normalizeLimit limit) j
        hlim.1 hlim.2 hgt hbound hj
      apply getD_x_mono _ hpw
      · omega
      · omega
    · unfold sampleEvenly
      rw [if_neg hgt]
      exact hpw.chain'

/-- C3 (counterexample): two successful records in the same second emit a
point with interval 0, refuting the claimed range `y ∈ (0, 120]`. -/
theorem GetIntervalTimeline_zero_y_cex :
    getIntervalTimelinePoints [(0, gs "m"), (0, gs "m")] 0 = [⟨0, 0, gs "m"⟩] ∧
    ¬ (∀ p ∈ getIntervalTimelinePoints [(0, gs "m"), (0, gs "m")] 0, 0 < p.y100) := by
  have hpts : intervalPoints [(0, gs "m"), (0, gs "m")] = [⟨0, 0, gs "m"⟩] := by
    simp only [intervalPoints]
    norm_num [kept_zero, y_zero]
  have hmain : getIntervalTimelinePoints [(0, gs "m"), (0, gs "m")] 0 = [⟨0, 0, gs "m"⟩] := by
    unfold getIntervalTimelinePoints normalizeLimit sampleEvenly
    rw [hpts]
    norm_num
  refine ⟨hmain, fun hcontr => ?_⟩
  have hzero := hcontr ⟨0, 0, gs "m"⟩ (by rw [hmain]; exact List.mem_singleton_self _)
  simp at hzero

/-- Witness for `GetIntervalTimeline_amended`: two records one minute apart
yield one point with `y = 1.00` minutes (100 centi-minutes), within
`[0, 12000]`. -/
theorem GetIntervalTimeline_amended_witness :
    getIntervalTimelinePoints [(0, gs "m"), (60, gs "m")] 0 =
      intervalPoints [(0, gs "m"), (60, gs "m")] ∧
    (0 ≤ (⟨60, 100, gs "m"⟩ : IPoint).y100 ∧ (⟨60, 100, gs "m"⟩ : IPoint).y100 ≤ 12000) := by
  have hpts : intervalPoints [(0, gs "m"), (60, gs "m")] = [⟨60, 100, gs "m"⟩] := by
    simp only [intervalPoints]
    norm_num [kept_sixty, y_sixty]
  have h := GetIntervalTimeline_amended [(0, gs "m"), (60, gs "m")] 0
    (List.chain'_cons.mpr ⟨by norm_num, List.chain'_singleton _⟩)
    (by rw [hpts]; norm_num)
  refine ⟨h.2.2.2.2.2.2.1 (by rw [hpts]; decide), ?_⟩
  exact h.2.2.2.1 ⟨60, 100, gs "m"⟩ (by rw [hpts]; exact List.mem_singleton_self _)

end CLIProxy
